import Mathlib

/-!
# Docker-pipeline: the pipeline execution engine

A shallow embedding of `internal/pipeline/package.go`.

`Execute` talks to three collaborators: the Docker engine client, the operating
system (`os.Getwd`, `os.MkdirAll`, standard output) and the logger.  They are
embedded as a `World`: every operation answers as a function of the sequence of
calls made so far and of its arguments.  Within one run no sequence of calls
occurs twice, so every run against collaborators of any kind, stateful or not,
is the run in some `World`; a statement about all worlds is a statement about
all runs.  `Execute` threads an explicit `State` holding the trace of calls
together with their answers, the warnings logged, and the stack of deferred
`reader.Close()` calls, which Go runs when `Execute` returns, last deferred
first.  The race inside `waitForCompletion` is embedded by its outcome: the
world answers a wait with the one signal the `select` receives.

Go `error` values are embedded by their message: `Option String` is an `error`
that may be `nil`, and `Except String α` is a `(value, error)` result pair.
-/

set_option autoImplicit false

namespace DockerPipeline

/-! ## Data model (package.go, lines 17-48) -/

/-- A named host directory, `type Volume struct`. -/
structure Volume where
  Name : String
  HostPath : String
deriving DecidableEq, Repr

/-- A reference of a task to a volume, `type VolumeMount struct`. -/
structure VolumeMount where
  Name : String
  ContainerPath : String
deriving DecidableEq, Repr

/-- One unit of work, `type Task struct`. -/
structure Task where
  Image : String
  Command : List String
  VolumeMounts : List VolumeMount
deriving DecidableEq, Repr

/-- The parsed input document, `type Manifest struct`. -/
structure Manifest where
  Tasks : List Task
  Volumes : List Volume
deriving DecidableEq, Repr

/-- The value `Execute` is a method of, `type Pipeline struct`. -/
structure Pipeline where
  tasks : List Task
  volumes : List Volume
deriving DecidableEq, Repr

/-- Constructor `NewPipeline`: copies both collections of the manifest. -/
def NewPipeline (manifest : Manifest) : Pipeline :=
  { tasks := manifest.Tasks, volumes := manifest.Volumes }

/-! ## Values exchanged with the collaborators -/

/-- The constant `mount.TypeBind` of the Docker API. -/
def TypeBind : String := "bind"

/-- The fields of `mount.Mount` that `Execute` sets (`Type`, `Source`, `Target`). -/
structure Mount where
  Kind : String
  Source : String
  Target : String
deriving DecidableEq, Repr

/-- The `io.ReadCloser` handed out by `ImagePull`, identified by a handle. -/
structure Reader where
  handle : Nat
deriving DecidableEq, Repr

/-- What the `select` of `waitForCompletion` receives from the two channels of
`ContainerWait`: a value on the status channel (carrying the exit code), or a
value on the error channel (an `error`, which Go allows to be `nil`). -/
inductive WaitSignal where
  | status (statusCode : Int)
  | errs (err : Option String)
deriving DecidableEq, Repr

/-- A call made by `Execute` on a collaborator, with its arguments. -/
inductive Call where
  | newClient
  | getwd
  | imagePull (image : String)
  | copy (reader : Reader)
  | mkdirAll (path : String) (perm : Nat)
  | containerCreate (image : String) (cmd : List String) (mounts : List Mount)
  | containerStart (id : String)
  | containerWait (id : String)
  | containerRemove (id : String)
  | close (reader : Reader)
deriving DecidableEq, Repr

deriving instance DecidableEq for Except

/-- A call together with the answer it received. -/
inductive Event where
  | newClient (err : Option String)
  | getwd (res : Except String String)
  | imagePull (image : String) (res : Except String Reader)
  | copy (reader : Reader)
  | mkdirAll (path : String) (perm : Nat) (err : Option String)
  | containerCreate (image : String) (cmd : List String) (mounts : List Mount)
      (res : Except String String)
  | containerStart (id : String) (err : Option String)
  | containerWait (id : String) (signal : WaitSignal)
  | containerRemove (id : String) (err : Option String)
  | close (reader : Reader)
deriving DecidableEq, Repr

/-- The call an event records. -/
def Event.call : Event → Call
  | .newClient _ => .newClient
  | .getwd _ => .getwd
  | .imagePull image _ => .imagePull image
  | .copy reader => .copy reader
  | .mkdirAll path perm _ => .mkdirAll path perm
  | .containerCreate image cmd mounts _ => .containerCreate image cmd mounts
  | .containerStart id _ => .containerStart id
  | .containerWait id _ => .containerWait id
  | .containerRemove id _ => .containerRemove id
  | .close reader => .close reader

/-- The collaborators of `Execute`.  Each operation receives the calls made so
far, oldest first, and its own arguments.  `Join` is `path.Join` of the Go
standard library, a pure function taken as a parameter. -/
structure World where
  NewClientWithOpts : List Call → Option String
  Getwd : List Call → Except String String
  ImagePull : List Call → String → Except String Reader
  MkdirAll : List Call → String → Nat → Option String
  ContainerCreate : List Call → String → List String → List Mount → Except String String
  ContainerStart : List Call → String → Option String
  ContainerWait : List Call → String → WaitSignal
  ContainerRemove : List Call → String → Option String
  Join : String → String → String

/-! ## Execution state -/

/-- The state threaded through `Execute`. -/
structure State where
  trace : List Event
  logs : List String
  deferred : List Reader

/-- The calls made so far, oldest first. -/
def State.calls (s : State) : List Call := s.trace.map Event.call

/-- Record one more call and its answer. -/
def State.emit (s : State) (e : Event) : State :=
  { s with trace := s.trace ++ [e] }

/-- Statement `defer reader.Close()`: push the reader on the deferred stack. -/
def State.defer (s : State) (reader : Reader) : State :=
  { s with deferred := reader :: s.deferred }

/-- Statement `log.Printf`: append one line to the log. -/
def State.log (s : State) (line : String) : State :=
  { s with logs := s.logs ++ [line] }

/-- What a run of `Execute` leaves behind: the returned `error`, the complete
trace of calls, and the log. -/
structure Result where
  err : Option String
  trace : List Event
  logs : List String

/-- A `return` of `Execute`: the deferred closes run, last deferred first. -/
def State.ret (s : State) (err : Option String) : Result :=
  { err := err, trace := s.trace ++ s.deferred.map Event.close, logs := s.logs }

/-! ## The program (package.go, lines 50-145) -/

/-- Function `waitForCompletion` (lines 136-145): one `ContainerWait`, then the
`select`: a value from `errs` is returned as it is, a value from `status` gives
`nil`. -/
def waitForCompletion (w : World) (s : State) (id : String) : State × Option String :=
  match w.ContainerWait s.calls id with
  | .errs err => (s.emit (.containerWait id (.errs err)), err)
  | .status code => (s.emit (.containerWait id (.status code)), none)

/-- The inner loop of lines 84-89: the first volume, in list order, whose name
equals `name`; `none` is the `nil` pointer left when the loop finds nothing. -/
def findVolume : List Volume → String → Option Volume
  | [], _ => none
  | v :: vs, name => if v.Name = name then some v else findVolume vs name

/-- The loop over `task.VolumeMounts` (lines 82-107), `mounts` being the slice
built so far. -/
def mountLoop (w : World) (pwd : String) (volumes : List Volume) :
    List VolumeMount → State → List Mount → State × Except String (List Mount)
  | [], s, mounts => (s, .ok mounts)
  | volumeMount :: rest, s, mounts =>
    match findVolume volumes volumeMount.Name with
    | none => (s, .error ("failed to find volume: " ++ volumeMount.Name))
    | some volume =>
      let hostPath := w.Join pwd volume.HostPath
      match w.MkdirAll s.calls hostPath 0o755 with
      | some err =>
        (s.emit (.mkdirAll hostPath 0o755 (some err)),
          .error ("failed to create volume: " ++ volumeMount.Name))
      | none =>
        mountLoop w pwd volumes rest (s.emit (.mkdirAll hostPath 0o755 none))
          (mounts ++ [{ Kind := TypeBind, Source := hostPath,
                        Target := volumeMount.ContainerPath }])

/-- One iteration of the task loop (lines 66-130).  The second component is the
error `Execute` returns from inside the iteration, `none` when the iteration
runs to its end. -/
def runTask (w : World) (pwd : String) (volumes : List Volume) (task : Task) (s : State) :
    State × Option String :=
  match w.ImagePull s.calls task.Image with
  | .error err =>
    (s.emit (.imagePull task.Image (.error err)), some ("failed to pull image: " ++ err))
  | .ok reader =>
    let s1 := ((s.emit (.imagePull task.Image (.ok reader))).defer reader).emit (.copy reader)
    match mountLoop w pwd volumes task.VolumeMounts s1 [] with
    | (s2, .error msg) => (s2, some msg)
    | (s2, .ok mounts) =>
      match w.ContainerCreate s2.calls task.Image task.Command mounts with
      | .error err =>
        (s2.emit (.containerCreate task.Image task.Command mounts (.error err)),
          some ("failed to create container: " ++ err))
      | .ok id =>
        let s3 := s2.emit (.containerCreate task.Image task.Command mounts (.ok id))
        match w.ContainerStart s3.calls id with
        | some err =>
          (s3.emit (.containerStart id (some err)), some ("failed to start container: " ++ err))
        | none =>
          let s4 := s3.emit (.containerStart id none)
          match waitForCompletion w s4 id with
          | (s5, some err) => (s5, some ("failed to wait for container: " ++ err))
          | (s5, none) =>
            match w.ContainerRemove s5.calls id with
            | some err =>
              ((s5.emit (.containerRemove id (some err))).log
                ("[warning] failed to remove container: " ++ err ++ "\n"), none)
            | none => (s5.emit (.containerRemove id none), none)

/-- The loop over `pipeline.tasks` (line 65): an iteration that returns an error
ends the loop. -/
def taskLoop (w : World) (pwd : String) (volumes : List Volume) :
    List Task → State → State × Option String
  | [], s => (s, none)
  | task :: rest, s =>
    match runTask w pwd volumes task s with
    | (s1, some err) => (s1, some err)
    | (s1, none) => taskLoop w pwd volumes rest s1

/-- Method `Pipeline.Execute` (lines 50-134).  `args` is accepted and unused. -/
def Execute (w : World) (pipeline : Pipeline) (_args : List String) : Result :=
  let s0 : State := { trace := [], logs := [], deferred := [] }
  match w.NewClientWithOpts s0.calls with
  | some err =>
    (s0.emit (.newClient (some err))).ret (some ("failed to create docker client: " ++ err))
  | none =>
    let s1 := s0.emit (.newClient none)
    match w.Getwd s1.calls with
    | .error err =>
      (s1.emit (.getwd (.error err))).ret (some ("failed to get working directory: " ++ err))
    | .ok pwd =>
      let s2 := s1.emit (.getwd (.ok pwd))
      match taskLoop w pwd pipeline.volumes pipeline.tasks s2 with
      | (s3, err) => s3.ret err

/-! ## Sample worlds and pipelines -/

/-- A world in which every call succeeds: the working directory is `/work`, the
k-th call overall that is a pull or a create answers with handle `k` and
identifier `"c" ++ k`, every wait reports exit code `code`.  Its `Join` puts a
slash between the directory and the relative path, dropping a leading `./` of
the latter, which is what `path.Join` gives on the paths of the examples. -/
def calmWorld (code : Int) : World where
  NewClientWithOpts := fun _ => none
  Getwd := fun _ => .ok "/work"
  ImagePull := fun h _ => .ok ⟨h.length⟩
  MkdirAll := fun _ _ _ => none
  ContainerCreate := fun h _ _ _ => .ok ("c" ++ toString h.length)
  ContainerStart := fun _ _ => none
  ContainerWait := fun _ _ => .status code
  ContainerRemove := fun _ _ => none
  Join := fun dir rel =>
    match rel.data with
    | '.' :: '/' :: cs => dir ++ "/" ++ String.mk cs
    | _ => dir ++ "/" ++ rel

/-- The example manifest of the specification: one volume, one task mounting it. -/
def exampleManifest : Manifest :=
  { Volumes := [{ Name := "data", HostPath := "./data" }],
    Tasks := [{ Image := "alpine", Command := ["echo", "hi"],
                VolumeMounts := [{ Name := "data", ContainerPath := "/data" }] }] }

/-- The calm world with faults injected: a call for which `fault` gives a message
fails with that message (a wait delivers it on the error channel). -/
def faultyWorld (fault : Call → Option String) : World where
  NewClientWithOpts := fun _ => fault .newClient
  Getwd := fun _ =>
    match fault .getwd with
    | some e => .error e
    | none => .ok "/work"
  ImagePull := fun h image =>
    match fault (.imagePull image) with
    | some e => .error e
    | none => .ok ⟨h.length⟩
  MkdirAll := fun _ path perm => fault (.mkdirAll path perm)
  ContainerCreate := fun h image cmd mounts =>
    match fault (.containerCreate image cmd mounts) with
    | some e => .error e
    | none => .ok ("c" ++ toString h.length)
  ContainerStart := fun _ id => fault (.containerStart id)
  ContainerWait := fun _ id =>
    match fault (.containerWait id) with
    | some e => .errs (some e)
    | none => .status 0
  ContainerRemove := fun _ id => fault (.containerRemove id)
  Join := (calmWorld 0).Join

/-- Two tasks without volumes: `alpine`, then `busybox`. -/
def twoTasks : Pipeline :=
  { volumes := [],
    tasks := [{ Image := "alpine", Command := ["true"], VolumeMounts := [] },
              { Image := "busybox", Command := ["true"], VolumeMounts := [] }] }

/-- Every create of an `alpine` container fails. -/
def createFault : Call → Option String
  | .containerCreate "alpine" _ _ => some "no space left on device"
  | _ => none

/-- Every directory creation fails. -/
def mkdirFault : Call → Option String
  | .mkdirAll _ _ => some "permission denied"
  | _ => none

/-- Two volumes with the same name, to observe which one a lookup takes. -/
def twinVolumes : List Volume :=
  [{ Name := "data", HostPath := "first" }, { Name := "data", HostPath := "second" }]

/-- Three tasks over the volume `data`; the second mounts `data` and then the
undefined volume `cache`. -/
def missingVolumePipeline : Pipeline :=
  { volumes := [{ Name := "data", HostPath := "./data" }],
    tasks := [{ Image := "alpine", Command := ["true"],
                VolumeMounts := [{ Name := "data", ContainerPath := "/data" }] },
              { Image := "busybox", Command := ["true"],
                VolumeMounts := [{ Name := "data", ContainerPath := "/data" },
                                 { Name := "cache", ContainerPath := "/cache" }] },
              { Image := "debian", Command := ["true"], VolumeMounts := [] }] }

/-- The start of the container `c10` fails. -/
def startFault : Call → Option String
  | .containerStart "c10" => some "oci runtime error"
  | _ => none

/-- The removal of the container `c4` fails. -/
def removeFault : Call → Option String
  | .containerRemove "c4" => some "removal already in progress"
  | _ => none

/-! ## Observations on traces -/

/-- The call closes a pull-progress stream. -/
def Event.isClose : Event → Bool
  | .close _ => true
  | _ => false

/-- For a failed call whose error `Execute` formats into its own: the text put
in front of the cause (lines 55, 62, 70, 115, 120, 124), and the cause. -/
def Event.wrapped : Event → Option (String × String)
  | .newClient (some cause) => some ("failed to create docker client: ", cause)
  | .getwd (.error cause) => some ("failed to get working directory: ", cause)
  | .imagePull _ (.error cause) => some ("failed to pull image: ", cause)
  | .containerCreate _ _ _ (.error cause) => some ("failed to create container: ", cause)
  | .containerStart _ (some cause) => some ("failed to start container: ", cause)
  | .containerWait _ (.errs (some cause)) => some ("failed to wait for container: ", cause)
  | _ => none

/-- The call is one the task loop makes. -/
def Event.inLoop : Event → Bool
  | .newClient _ => false
  | .getwd _ => false
  | .close _ => false
  | _ => true

/-- The five operations of the engine client contract. -/
def Call.isEngine : Call → Bool
  | .imagePull _ => true
  | .containerCreate _ _ _ => true
  | .containerStart _ => true
  | .containerWait _ => true
  | .containerRemove _ => true
  | _ => false

/-- The engine calls of a trace, in the order they were made. -/
def engineCalls (tr : List Event) : List Call :=
  (tr.map Event.call).filter Call.isEngine

/-- The call reported an error. -/
def Event.failed : Event → Bool
  | .newClient (some _) => true
  | .getwd (.error _) => true
  | .imagePull _ (.error _) => true
  | .mkdirAll _ _ (some _) => true
  | .containerCreate _ _ _ (.error _) => true
  | .containerStart _ (some _) => true
  | .containerWait _ (.errs (some _)) => true
  | .containerRemove _ (some _) => true
  | _ => false

/-- The call is a container removal. -/
def Event.isRemove : Event → Bool
  | .containerRemove _ _ => true
  | _ => false

/-- A failure of any call other than a removal. -/
def Event.fatal (e : Event) : Bool := e.failed && !e.isRemove

/-- A failed pull, create, start or wait. -/
def Event.engineFatal : Event → Bool
  | .imagePull _ (.error _) => true
  | .containerCreate _ _ _ (.error _) => true
  | .containerStart _ (some _) => true
  | .containerWait _ (.errs (some _)) => true
  | _ => false

/-- The call is a directory creation. -/
def Event.isMkdir : Event → Bool
  | .mkdirAll _ _ _ => true
  | _ => false

/-- The identifiers handed out by the successful creates of a trace. -/
def createdIds (tr : List Event) : List String :=
  tr.filterMap fun e =>
    match e with
    | .containerCreate _ _ _ (.ok id) => some id
    | _ => none

/-- The images of the pulls of a trace, in order. -/
def pulledImages (tr : List Event) : List String :=
  tr.filterMap fun e =>
    match e with
    | .imagePull image _ => some image
    | _ => none

/-- The message `msg` contains `part` as a contiguous piece. -/
def Mentions (msg part : String) : Prop := part.data <:+: msg.data

/-! ## The mounts and calls the specification expects -/

/-- One bind mount per volume mount whose name resolves, in order: the source is
the working directory joined with the host path of the volume found, the target
is the container path. -/
def bindMounts (join : String → String → String) (pwd : String) (volumes : List Volume)
    (vms : List VolumeMount) : List Mount :=
  vms.filterMap fun vm =>
    (findVolume volumes vm.Name).map fun v =>
      { Kind := TypeBind, Source := join pwd v.HostPath, Target := vm.ContainerPath }

/-- The successful directory creations for a list of mounts. -/
def mkdirs (mounts : List Mount) : List Event :=
  mounts.map fun m => Event.mkdirAll m.Source 0o755 none

/-- The engine calls of one task that runs to its end, `id` being the identifier
its create returned. -/
def taskCalls (join : String → String → String) (pwd : String) (volumes : List Volume)
    (t : Task) (id : String) : List Call :=
  [.imagePull t.Image,
   .containerCreate t.Image t.Command (bindMounts join pwd volumes t.VolumeMounts),
   .containerStart id, .containerWait id, .containerRemove id]

/-- Every volume mount of the list names a volume of `volumes`. -/
def Resolvable (volumes : List Volume) (vms : List VolumeMount) : Prop :=
  ∀ vm ∈ vms, ∃ v ∈ volumes, v.Name = vm.Name

instance (volumes : List Volume) (vms : List VolumeMount) : Decidable (Resolvable volumes vms) := by
  unfold Resolvable
  infer_instance

/-! ## The shapes a run can take

The relations below list, branch by branch, what one pass through the mount
loop, one iteration of the task loop and the whole task loop can append to the
trace and return.  The theorems `mountLoop_shape`, `runTask_shape` and
`taskLoop_shape` prove that the program only produces these shapes; the claims
are then read off the shapes. -/

/-- The events and the result of the loop over the volume mounts. -/
inductive MountRun (join : String → String → String) (pwd : String) (volumes : List Volume) :
    List VolumeMount → List Event → Except String (List Mount) → Prop
  | resolved (vms : List VolumeMount) :
      (∀ vm ∈ vms, (findVolume volumes vm.Name).isSome) →
      MountRun join pwd volumes vms (mkdirs (bindMounts join pwd volumes vms))
        (.ok (bindMounts join pwd volumes vms))
  | missing (vpre : List VolumeMount) (vm : VolumeMount) (vpost : List VolumeMount) :
      (∀ u ∈ vpre, (findVolume volumes u.Name).isSome) →
      findVolume volumes vm.Name = none →
      MountRun join pwd volumes (vpre ++ vm :: vpost) (mkdirs (bindMounts join pwd volumes vpre))
        (.error ("failed to find volume: " ++ vm.Name))
  | mkdirFailed (vpre : List VolumeMount) (vm : VolumeMount) (vpost : List VolumeMount)
      (v : Volume) (cause : String) :
      (∀ u ∈ vpre, (findVolume volumes u.Name).isSome) →
      findVolume volumes vm.Name = some v →
      MountRun join pwd volumes (vpre ++ vm :: vpost)
        (mkdirs (bindMounts join pwd volumes vpre) ++
          [.mkdirAll (join pwd v.HostPath) 0o755 (some cause)])
        (.error ("failed to create volume: " ++ vm.Name))

/-- The events and the returned error of one iteration of the task loop. -/
inductive TaskRun (join : String → String → String) (pwd : String) (volumes : List Volume)
    (t : Task) : List Event → Option String → Prop
  | pullFailed (cause : String) :
      TaskRun join pwd volumes t [.imagePull t.Image (.error cause)]
        (some ("failed to pull image: " ++ cause))
  | mountFailed (r : Reader) (mk : List Event) (msg : String) :
      MountRun join pwd volumes t.VolumeMounts mk (.error msg) →
      TaskRun join pwd volumes t (.imagePull t.Image (.ok r) :: .copy r :: mk) (some msg)
  | createFailed (r : Reader) (mk : List Event) (mounts : List Mount) (cause : String) :
      MountRun join pwd volumes t.VolumeMounts mk (.ok mounts) →
      TaskRun join pwd volumes t
        (.imagePull t.Image (.ok r) :: .copy r :: mk ++
          [.containerCreate t.Image t.Command mounts (.error cause)])
        (some ("failed to create container: " ++ cause))
  | startFailed (r : Reader) (mk : List Event) (mounts : List Mount) (id cause : String) :
      MountRun join pwd volumes t.VolumeMounts mk (.ok mounts) →
      TaskRun join pwd volumes t
        (.imagePull t.Image (.ok r) :: .copy r :: mk ++
          [.containerCreate t.Image t.Command mounts (.ok id),
           .containerStart id (some cause)])
        (some ("failed to start container: " ++ cause))
  | waitFailed (r : Reader) (mk : List Event) (mounts : List Mount) (id cause : String) :
      MountRun join pwd volumes t.VolumeMounts mk (.ok mounts) →
      TaskRun join pwd volumes t
        (.imagePull t.Image (.ok r) :: .copy r :: mk ++
          [.containerCreate t.Image t.Command mounts (.ok id),
           .containerStart id none,
           .containerWait id (.errs (some cause))])
        (some ("failed to wait for container: " ++ cause))
  | completed (r : Reader) (mk : List Event) (mounts : List Mount) (id : String)
      (sig : WaitSignal) (rm : Option String) :
      MountRun join pwd volumes t.VolumeMounts mk (.ok mounts) →
      (∀ cause, sig ≠ .errs (some cause)) →
      TaskRun join pwd volumes t
        (.imagePull t.Image (.ok r) :: .copy r :: mk ++
          [.containerCreate t.Image t.Command mounts (.ok id),
           .containerStart id none,
           .containerWait id sig,
           .containerRemove id rm])
        none

/-- The events and the returned error of the loop over the tasks. -/
inductive LoopRun (join : String → String → String) (pwd : String) (volumes : List Volume) :
    List Task → List Event → Option String → Prop
  | done : LoopRun join pwd volumes [] [] none
  | next (t : Task) (ts : List Task) (evs rest : List Event) (err : Option String) :
      TaskRun join pwd volumes t evs none →
      LoopRun join pwd volumes ts rest err →
      LoopRun join pwd volumes (t :: ts) (evs ++ rest) err
  | abort (t : Task) (ts : List Task) (evs : List Event) (msg : String) :
      TaskRun join pwd volumes t evs (some msg) →
      LoopRun join pwd volumes (t :: ts) evs (some msg)

/-! ## Basic facts -/

@[simp] theorem State.trace_emit (s : State) (e : Event) :
    (s.emit e).trace = s.trace ++ [e] := rfl

@[simp] theorem State.calls_emit (s : State) (e : Event) :
    (s.emit e).calls = s.calls ++ [e.call] := by
  simp [State.calls]

@[simp] theorem State.deferred_emit (s : State) (e : Event) :
    (s.emit e).deferred = s.deferred := rfl

@[simp] theorem State.trace_defer (s : State) (r : Reader) :
    (s.defer r).trace = s.trace := rfl

@[simp] theorem State.calls_defer (s : State) (r : Reader) :
    (s.defer r).calls = s.calls := rfl

@[simp] theorem State.deferred_defer (s : State) (r : Reader) :
    (s.defer r).deferred = r :: s.deferred := rfl

@[simp] theorem State.trace_log (s : State) (line : String) :
    (s.log line).trace = s.trace := rfl

@[simp] theorem State.calls_log (s : State) (line : String) :
    (s.log line).calls = s.calls := rfl

@[simp] theorem State.deferred_log (s : State) (line : String) :
    (s.log line).deferred = s.deferred := rfl

theorem findVolume_isSome_iff (volumes : List Volume) (name : String) :
    (findVolume volumes name).isSome ↔ ∃ v ∈ volumes, v.Name = name := by
  induction volumes with
  | nil => simp [findVolume]
  | cons v vs ih =>
    by_cases h : v.Name = name
    · simp [findVolume, h]
    · simp [findVolume, h, ih]

theorem findVolume_eq_none_iff (volumes : List Volume) (name : String) :
    findVolume volumes name = none ↔ ∀ v ∈ volumes, v.Name ≠ name := by
  induction volumes with
  | nil => simp [findVolume]
  | cons v vs ih =>
    by_cases h : v.Name = name
    · simp [findVolume, h]
    · simp [findVolume, h, ih]

theorem findVolume_eq_some_iff (volumes : List Volume) (name : String) (v : Volume) :
    findVolume volumes name = some v ↔
      ∃ before after, volumes = before ++ v :: after ∧ v.Name = name ∧
        ∀ u ∈ before, u.Name ≠ name := by
  induction volumes with
  | nil => simp [findVolume]
  | cons x xs ih =>
    by_cases h : x.Name = name
    · simp only [findVolume, h, if_true, Option.some.injEq]
      constructor
      · rintro rfl
        exact ⟨[], xs, rfl, h, by simp⟩
      · rintro ⟨before, after, heq, hv, hb⟩
        cases before with
        | nil => simp at heq; exact heq.1
        | cons b bs =>
          simp at heq
          exact absurd h (heq.1 ▸ hb b (by simp))
    · simp only [findVolume, h, if_false, ih]
      constructor
      · rintro ⟨before, after, heq, hv, hb⟩
        refine ⟨x :: before, after, by simp [heq], hv, ?_⟩
        intro u hu
        rcases List.mem_cons.mp hu with rfl | hu
        · exact h
        · exact hb u hu
      · rintro ⟨before, after, heq, hv, hb⟩
        cases before with
        | nil => simp at heq; exact absurd hv (heq.1 ▸ h)
        | cons b bs =>
          simp at heq
          exact ⟨bs, after, heq.2, hv, fun u hu => hb u (by simp [hu])⟩

theorem resolvable_iff (volumes : List Volume) (vms : List VolumeMount) :
    Resolvable volumes vms ↔ ∀ vm ∈ vms, (findVolume volumes vm.Name).isSome := by
  simp [Resolvable, findVolume_isSome_iff]

/-! ## The program produces only the listed shapes -/

theorem bindMounts_cons_some (join : String → String → String) (pwd : String)
    (volumes : List Volume) (vm : VolumeMount) (rest : List VolumeMount) (v : Volume)
    (h : findVolume volumes vm.Name = some v) :
    bindMounts join pwd volumes (vm :: rest) =
      { Kind := TypeBind, Source := join pwd v.HostPath, Target := vm.ContainerPath } ::
        bindMounts join pwd volumes rest := by
  simp [bindMounts, h]

theorem mountLoop_shape (w : World) (pwd : String) (volumes : List Volume) :
    ∀ (vms : List VolumeMount) (s : State) (acc : List Mount),
      ∃ evs res,
        MountRun w.Join pwd volumes vms evs res ∧
        (mountLoop w pwd volumes vms s acc).1.trace = s.trace ++ evs ∧
        (mountLoop w pwd volumes vms s acc).1.deferred = s.deferred ∧
        (mountLoop w pwd volumes vms s acc).2 = res.map (acc ++ ·) := by
  intro vms
  induction vms with
  | nil =>
    intro s acc
    refine ⟨[], .ok [], ?_, by simp [mountLoop], by simp [mountLoop], by simp [mountLoop, Except.map]⟩
    exact MountRun.resolved [] (by simp)
  | cons vm rest ih =>
    intro s acc
    cases hf : findVolume volumes vm.Name with
    | none =>
      refine ⟨[], .error ("failed to find volume: " ++ vm.Name), ?_, ?_, ?_, ?_⟩
      · exact MountRun.missing [] vm rest (by simp) hf
      · simp [mountLoop, hf]
      · simp [mountLoop, hf]
      · simp [mountLoop, hf, Except.map]
    | some v =>
      cases hm : w.MkdirAll s.calls (w.Join pwd v.HostPath) 0o755 with
      | some cause =>
        refine ⟨[.mkdirAll (w.Join pwd v.HostPath) 0o755 (some cause)],
          .error ("failed to create volume: " ++ vm.Name), ?_, ?_, ?_, ?_⟩
        · exact MountRun.mkdirFailed [] vm rest v cause (by simp) hf
        · simp [mountLoop, hf, hm]
        · simp [mountLoop, hf, hm]
        · simp [mountLoop, hf, hm, Except.map]
      | none =>
        obtain ⟨evs, res, hrun, htr, hdef, hres⟩ :=
          ih (s.emit (.mkdirAll (w.Join pwd v.HostPath) 0o755 none))
            (acc ++ [{ Kind := TypeBind, Source := w.Join pwd v.HostPath,
                       Target := vm.ContainerPath }])
        have hstep : mountLoop w pwd volumes (vm :: rest) s acc =
            mountLoop w pwd volumes rest (s.emit (.mkdirAll (w.Join pwd v.HostPath) 0o755 none))
              (acc ++ [{ Kind := TypeBind, Source := w.Join pwd v.HostPath,
                         Target := vm.ContainerPath }]) := by
          simp [mountLoop, hf, hm]
        have hsome : (findVolume volumes vm.Name).isSome := by simp [hf]
        cases hrun with
        | resolved _ hall =>
          refine ⟨_, _, MountRun.resolved (vm :: rest) ?_, ?_, ?_, ?_⟩
          · intro u hu
            rcases List.mem_cons.mp hu with rfl | hu
            · exact hsome
            · exact hall u hu
          · rw [hstep, htr, bindMounts_cons_some _ _ _ _ _ _ hf]
            simp [mkdirs]
          · rw [hstep, hdef]; rfl
          · rw [hstep, hres, bindMounts_cons_some _ _ _ _ _ _ hf]
            simp [Except.map]
        | missing vpre vm2 vpost hall hnone =>
          refine ⟨_, _, MountRun.missing (vm :: vpre) vm2 vpost ?_ hnone, ?_, ?_, ?_⟩
          · intro u hu
            rcases List.mem_cons.mp hu with rfl | hu
            · exact hsome
            · exact hall u hu
          · rw [hstep, htr, bindMounts_cons_some _ _ _ _ _ _ hf]
            simp [mkdirs]
          · rw [hstep, hdef]; rfl
          · rw [hstep, hres]
            simp [Except.map]
        | mkdirFailed vpre vm2 vpost v2 cause hall hfound =>
          refine ⟨_, _, MountRun.mkdirFailed (vm :: vpre) vm2 vpost v2 cause ?_ hfound, ?_, ?_, ?_⟩
          · intro u hu
            rcases List.mem_cons.mp hu with rfl | hu
            · exact hsome
            · exact hall u hu
          · rw [hstep, htr, bindMounts_cons_some _ _ _ _ _ _ hf]
            simp [mkdirs]
          · rw [hstep, hdef]; rfl
          · rw [hstep, hres]
            simp [Except.map]

theorem waitForCompletion_eq (w : World) (s : State) (id : String) :
    waitForCompletion w s id =
      (s.emit (.containerWait id (w.ContainerWait s.calls id)),
        match w.ContainerWait s.calls id with
        | .errs err => err
        | .status _ => none) := by
  unfold waitForCompletion
  split <;> rename_i h <;> simp [h]

theorem runTask_shape (w : World) (pwd : String) (volumes : List Volume) (t : Task) (s : State) :
    ∃ evs, (runTask w pwd volumes t s).1.trace = s.trace ++ evs ∧
      TaskRun w.Join pwd volumes t evs (runTask w pwd volumes t s).2 := by
  unfold runTask
  split
  · exact ⟨_, rfl, TaskRun.pullFailed _⟩
  · rename_i r hp
    dsimp only
    obtain ⟨mk, res, hrun, htr, -, hres⟩ := mountLoop_shape w pwd volumes t.VolumeMounts
      (((s.emit (.imagePull t.Image (.ok r))).defer r).emit (.copy r)) []
    split
    · rename_i s2 msg hml
      rw [hml] at htr hres
      cases res with
      | ok m => simp [Except.map] at hres
      | error e =>
        simp [Except.map] at hres
        subst hres
        exact ⟨_, by simpa using htr, TaskRun.mountFailed r mk msg hrun⟩
    · rename_i s2 mounts hml
      rw [hml] at htr hres
      cases res with
      | error e => simp [Except.map] at hres
      | ok m =>
        simp [Except.map] at hres
        subst hres
        simp only [State.trace_emit, State.trace_defer] at htr
        split
        · exact ⟨_, by simp [htr], TaskRun.createFailed r mk mounts _ hrun⟩
        · rename_i id hc
          split
          · exact ⟨_, by simp [htr], TaskRun.startFailed r mk mounts id _ hrun⟩
          · rename_i hs
            rw [waitForCompletion_eq]
            split
            · rename_i s5 cause hw
              simp only [Prod.mk.injEq] at hw
              obtain ⟨hs5, hsig⟩ := hw
              subst hs5
              split at hsig
              · rename_i err hsigeq
                subst hsig
                rw [hsigeq]
                exact ⟨_, by simp [htr], TaskRun.waitFailed r mk mounts id cause hrun⟩
              · simp at hsig
            · rename_i s5 hw
              simp only [Prod.mk.injEq] at hw
              obtain ⟨hs5, hsig⟩ := hw
              subst hs5
              have hne : ∀ cause, w.ContainerWait
                  (((s2.emit (.containerCreate t.Image t.Command mounts (.ok id))).emit
                    (.containerStart id none)).calls) id ≠ .errs (some cause) := by
                intro cause hcontra
                rw [hcontra] at hsig
                simp at hsig
              split
              · rename_i cause hrm
                exact ⟨_, by simp [htr], TaskRun.completed r mk mounts id _ (some cause) hrun hne⟩
              · exact ⟨_, by simp [htr], TaskRun.completed r mk mounts id _ none hrun hne⟩

theorem taskLoop_shape (w : World) (pwd : String) (volumes : List Volume) :
    ∀ (ts : List Task) (s : State),
      ∃ evs, (taskLoop w pwd volumes ts s).1.trace = s.trace ++ evs ∧
        LoopRun w.Join pwd volumes ts evs (taskLoop w pwd volumes ts s).2 := by
  intro ts
  induction ts with
  | nil =>
    intro s
    exact ⟨[], by simp [taskLoop], LoopRun.done⟩
  | cons t rest ih =>
    intro s
    obtain ⟨evs, htr, hrun⟩ := runTask_shape w pwd volumes t s
    unfold taskLoop
    split
    · rename_i s1 err hrt
      rw [hrt] at htr hrun
      exact ⟨evs, htr, LoopRun.abort t rest evs err hrun⟩
    · rename_i s1 hrt
      rw [hrt] at htr hrun
      obtain ⟨more, htr2, hrun2⟩ := ih s1
      refine ⟨evs ++ more, ?_, LoopRun.next t rest evs more _ hrun hrun2⟩
      rw [htr2, htr]
      simp

/-- The three ways a run of `Execute` can go: the client cannot be built, the
working directory cannot be read, or the task loop runs from the trace
`[newClient, getwd]` and the deferred closes follow it. -/
theorem Execute_shape (w : World) (p : Pipeline) (args : List String) :
    (∃ cause, (Execute w p args).trace = [.newClient (some cause)] ∧
        (Execute w p args).err = some ("failed to create docker client: " ++ cause)) ∨
    (∃ cause, (Execute w p args).trace = [.newClient none, .getwd (.error cause)] ∧
        (Execute w p args).err = some ("failed to get working directory: " ++ cause)) ∨
    (∃ (pwd : String) (evs : List Event) (readers : List Reader),
        w.NewClientWithOpts [] = none ∧ w.Getwd [.newClient] = .ok pwd ∧
        (Execute w p args).trace =
          [.newClient none, .getwd (.ok pwd)] ++ evs ++ readers.map Event.close ∧
        LoopRun w.Join pwd p.volumes p.tasks evs (Execute w p args).err) := by
  cases hc : w.NewClientWithOpts [] with
  | some cause =>
    left
    exact ⟨cause, by simp [Execute, State.calls, hc, State.ret],
      by simp [Execute, State.calls, hc, State.ret]⟩
  | none =>
    right
    cases hg : w.Getwd [.newClient] with
    | error cause =>
      left
      exact ⟨cause, by simp [Execute, State.calls, Event.call, hc, hg, State.ret],
        by simp [Execute, State.calls, Event.call, hc, hg, State.ret]⟩
    | ok pwd =>
      right
      obtain ⟨evs, htr, hrun⟩ := taskLoop_shape w pwd p.volumes p.tasks
        ((State.emit { trace := [], logs := [], deferred := [] } (.newClient none)).emit
          (.getwd (.ok pwd)))
      refine ⟨pwd, evs, (taskLoop w pwd p.volumes p.tasks
        ((State.emit { trace := [], logs := [], deferred := [] } (.newClient none)).emit
          (.getwd (.ok pwd)))).1.deferred, rfl, rfl, ?_, ?_⟩
      · simp only [Execute, State.calls, List.map_nil, hc, State.trace_emit, List.nil_append,
          List.map_cons, Event.call, hg, State.ret]
        rw [htr]
        simp
      · simpa [Execute, State.calls, Event.call, hc, hg, State.ret] using hrun

/-! ## Facts about the shapes -/

theorem mkdirs_isMkdir (ms : List Mount) : ∀ e ∈ mkdirs ms, e.isMkdir = true := by
  intro e he
  simp only [mkdirs, List.mem_map] at he
  obtain ⟨m, -, rfl⟩ := he
  rfl

theorem mkdirs_not_failed (ms : List Mount) : ∀ e ∈ mkdirs ms, e.failed = false := by
  intro e he
  simp only [mkdirs, List.mem_map] at he
  obtain ⟨m, -, rfl⟩ := he
  rfl

theorem MountRun.all_mkdir {join : String → String → String} {pwd : String}
    {volumes : List Volume} {vms : List VolumeMount} {mk : List Event}
    {res : Except String (List Mount)} (h : MountRun join pwd volumes vms mk res) :
    ∀ e ∈ mk, e.isMkdir = true := by
  cases h with
  | resolved _ _ => exact mkdirs_isMkdir _
  | missing vpre vm vpost _ _ => exact mkdirs_isMkdir _
  | mkdirFailed vpre vm vpost v cause _ _ =>
    intro e he
    rcases List.mem_append.mp he with he | he
    · exact mkdirs_isMkdir _ e he
    · simp at he; subst he; rfl

theorem MountRun.ok_inv {join : String → String → String} {pwd : String}
    {volumes : List Volume} {vms : List VolumeMount} {mk : List Event} {mounts : List Mount}
    (h : MountRun join pwd volumes vms mk (.ok mounts)) :
    mounts = bindMounts join pwd volumes vms ∧ mk = mkdirs mounts ∧
      ∀ vm ∈ vms, (findVolume volumes vm.Name).isSome := by
  cases h with
  | resolved _ hall => exact ⟨rfl, rfl, hall⟩

theorem engineCalls_append (a b : List Event) :
    engineCalls (a ++ b) = engineCalls a ++ engineCalls b := by
  simp [engineCalls]

theorem createdIds_append (a b : List Event) :
    createdIds (a ++ b) = createdIds a ++ createdIds b := by
  simp [createdIds]

theorem pulledImages_append (a b : List Event) :
    pulledImages (a ++ b) = pulledImages a ++ pulledImages b := by
  simp [pulledImages]

theorem Event.isMkdir_inv {e : Event} (h : e.isMkdir = true) :
    ∃ path perm err, e = .mkdirAll path perm err := by
  cases e <;> first | exact ⟨_, _, _, rfl⟩ | exact absurd h (by simp [Event.isMkdir])

theorem engineCalls_of_mkdir (mk : List Event) (h : ∀ e ∈ mk, e.isMkdir = true) :
    engineCalls mk = [] := by
  induction mk with
  | nil => rfl
  | cons e es ih =>
    obtain ⟨path, perm, err, rfl⟩ := Event.isMkdir_inv (h e (by simp))
    have := ih (fun x hx => h x (by simp [hx]))
    simpa [engineCalls, Event.call, Call.isEngine] using this

theorem createdIds_of_mkdir (mk : List Event) (h : ∀ e ∈ mk, e.isMkdir = true) :
    createdIds mk = [] := by
  induction mk with
  | nil => rfl
  | cons e es ih =>
    obtain ⟨path, perm, err, rfl⟩ := Event.isMkdir_inv (h e (by simp))
    have := ih (fun x hx => h x (by simp [hx]))
    simpa [createdIds] using this

theorem pulledImages_of_mkdir (mk : List Event) (h : ∀ e ∈ mk, e.isMkdir = true) :
    pulledImages mk = [] := by
  induction mk with
  | nil => rfl
  | cons e es ih =>
    obtain ⟨path, perm, err, rfl⟩ := Event.isMkdir_inv (h e (by simp))
    have := ih (fun x hx => h x (by simp [hx]))
    simpa [pulledImages] using this

theorem engineCalls_of_close (rs : List Reader) : engineCalls (rs.map Event.close) = [] := by
  induction rs with
  | nil => rfl
  | cons r rs ih => simp [engineCalls, Event.call, Call.isEngine]

theorem createdIds_of_close (rs : List Reader) : createdIds (rs.map Event.close) = [] := by
  induction rs with
  | nil => rfl
  | cons r rs ih => simp [createdIds]

theorem pulledImages_of_close (rs : List Reader) : pulledImages (rs.map Event.close) = [] := by
  induction rs with
  | nil => rfl
  | cons r rs ih => simp [pulledImages]

/-- An iteration that runs to its end made the five engine calls of its task. -/
theorem TaskRun.none_inv {join : String → String → String} {pwd : String}
    {volumes : List Volume} {t : Task} {evs : List Event}
    (h : TaskRun join pwd volumes t evs none) :
    ∃ id, createdIds evs = [id] ∧ engineCalls evs = taskCalls join pwd volumes t id ∧
      pulledImages evs = [t.Image] ∧ ∀ e ∈ evs, e.fatal = false := by
  cases h with
  | completed r mk mounts id sig rm hrun hsig =>
    obtain ⟨hm, hmk, -⟩ := hrun.ok_inv
    have h1 := createdIds_of_mkdir mk hrun.all_mkdir
    have h2 := engineCalls_of_mkdir mk hrun.all_mkdir
    have h3 := pulledImages_of_mkdir mk hrun.all_mkdir
    refine ⟨id, ?_, ?_, ?_, ?_⟩
    · have : createdIds (Event.imagePull t.Image (.ok r) :: Event.copy r :: mk ++
          [Event.containerCreate t.Image t.Command mounts (.ok id), Event.containerStart id none,
            Event.containerWait id sig, Event.containerRemove id rm]) =
          createdIds [Event.imagePull t.Image (.ok r), Event.copy r] ++ createdIds mk ++
            createdIds [Event.containerCreate t.Image t.Command mounts (.ok id),
              Event.containerStart id none, Event.containerWait id sig,
              Event.containerRemove id rm] := by
        rw [← createdIds_append, ← createdIds_append]; simp
      rw [this, h1]
      simp [createdIds]
    · have : engineCalls (Event.imagePull t.Image (.ok r) :: Event.copy r :: mk ++
          [Event.containerCreate t.Image t.Command mounts (.ok id), Event.containerStart id none,
            Event.containerWait id sig, Event.containerRemove id rm]) =
          engineCalls [Event.imagePull t.Image (.ok r), Event.copy r] ++ engineCalls mk ++
            engineCalls [Event.containerCreate t.Image t.Command mounts (.ok id),
              Event.containerStart id none, Event.containerWait id sig,
              Event.containerRemove id rm] := by
        rw [← engineCalls_append, ← engineCalls_append]; simp
      rw [this, h2, hm]
      simp [engineCalls, Event.call, Call.isEngine, taskCalls]
    · have : pulledImages (Event.imagePull t.Image (.ok r) :: Event.copy r :: mk ++
          [Event.containerCreate t.Image t.Command mounts (.ok id), Event.containerStart id none,
            Event.containerWait id sig, Event.containerRemove id rm]) =
          pulledImages [Event.imagePull t.Image (.ok r), Event.copy r] ++ pulledImages mk ++
            pulledImages [Event.containerCreate t.Image t.Command mounts (.ok id),
              Event.containerStart id none, Event.containerWait id sig,
              Event.containerRemove id rm] := by
        rw [← pulledImages_append, ← pulledImages_append]; simp
      rw [this, h3]
      simp [pulledImages]
    · intro e he
      simp only [List.mem_cons, List.mem_append, List.mem_singleton, List.not_mem_nil,
        or_false] at he
      rcases he with (rfl | rfl | he) | rfl | rfl | rfl | rfl
      · rfl
      · rfl
      · rw [hmk] at he
        simp [Event.fatal, mkdirs_not_failed _ e he]
      · rfl
      · rfl
      · cases sig with
        | status c => rfl
        | errs o =>
          cases o with
          | none => rfl
          | some c => exact absurd rfl (hsig c)
      · simp [Event.fatal, Event.isRemove]

theorem MountRun.error_inv {join : String → String → String} {pwd : String}
    {volumes : List Volume} {vms : List VolumeMount} {mk : List Event} {msg : String}
    (h : MountRun join pwd volumes vms mk (.error msg)) :
    ∃ vpre vm vpost, vms = vpre ++ vm :: vpost ∧
      (∀ u ∈ vpre, (findVolume volumes u.Name).isSome) ∧
      ((findVolume volumes vm.Name = none ∧ mk = mkdirs (bindMounts join pwd volumes vpre) ∧
          msg = "failed to find volume: " ++ vm.Name) ∨
        (∃ v cause, findVolume volumes vm.Name = some v ∧
          mk = mkdirs (bindMounts join pwd volumes vpre) ++
            [.mkdirAll (join pwd v.HostPath) 0o755 (some cause)] ∧
          msg = "failed to create volume: " ++ vm.Name)) := by
  cases h with
  | missing vpre vm vpost hall hnone =>
    exact ⟨vpre, vm, vpost, rfl, hall, Or.inl ⟨hnone, rfl, rfl⟩⟩
  | mkdirFailed vpre vm vpost v cause hall hfound =>
    exact ⟨vpre, vm, vpost, rfl, hall, Or.inr ⟨v, cause, hfound, rfl, rfl⟩⟩

/-- An iteration that returns an error either met a failing call or a volume
mount that names no volume. -/
theorem TaskRun.some_inv {join : String → String → String} {pwd : String}
    {volumes : List Volume} {t : Task} {evs : List Event} {msg : String}
    (h : TaskRun join pwd volumes t evs (some msg)) :
    (∃ e ∈ evs, e.fatal = true) ∨
      (∃ vpre vm vpost r, t.VolumeMounts = vpre ++ vm :: vpost ∧
        (∀ u ∈ vpre, (findVolume volumes u.Name).isSome) ∧
        findVolume volumes vm.Name = none ∧
        evs = .imagePull t.Image (.ok r) :: .copy r :: mkdirs (bindMounts join pwd volumes vpre) ∧
        msg = "failed to find volume: " ++ vm.Name) := by
  cases h with
  | pullFailed cause => exact Or.inl ⟨_, List.mem_singleton.mpr rfl, rfl⟩
  | mountFailed r mk _ hrun =>
    obtain ⟨vpre, vm, vpost, hsplit, hall, hcase⟩ := hrun.error_inv
    rcases hcase with ⟨hnone, hmk, hmsg⟩ | ⟨v, cause, hfound, hmk, hmsg⟩
    · exact Or.inr ⟨vpre, vm, vpost, r, hsplit, hall, hnone, by rw [hmk], hmsg⟩
    · refine Or.inl ⟨.mkdirAll (join pwd v.HostPath) 0o755 (some cause), ?_, rfl⟩
      rw [hmk]
      simp
  | createFailed r mk mounts cause hrun =>
    exact Or.inl ⟨.containerCreate t.Image t.Command mounts (.error cause), by simp, rfl⟩
  | startFailed r mk mounts id cause hrun =>
    exact Or.inl ⟨.containerStart id (some cause), by simp, rfl⟩
  | waitFailed r mk mounts id cause hrun =>
    exact Or.inl ⟨.containerWait id (.errs (some cause)), by simp, rfl⟩

/-- When no call other than a removal fails and every volume mount resolves, the
task loop runs every task to its end. -/
theorem LoopRun.complete {join : String → String → String} {pwd : String}
    {volumes : List Volume} {ts : List Task} {evs : List Event} {err : Option String}
    (h : LoopRun join pwd volumes ts evs err)
    (hok : ∀ e ∈ evs, e.fatal = false)
    (hres : ∀ t ∈ ts, Resolvable volumes t.VolumeMounts) :
    err = none ∧ (createdIds evs).length = ts.length ∧
      engineCalls evs = (List.zipWith (taskCalls join pwd volumes) ts (createdIds evs)).flatten := by
  induction h with
  | done => simp [createdIds, engineCalls]
  | next t ts evs rest err htask _ ih =>
    obtain ⟨herr, hlen, hcalls⟩ :=
      ih (fun e he => hok e (List.mem_append_right _ he))
        (fun u hu => hres u (List.mem_cons_of_mem _ hu))
    obtain ⟨id, hids, hseg, -, -⟩ := htask.none_inv
    refine ⟨herr, ?_, ?_⟩
    · rw [createdIds_append, hids]
      simp [hlen]
    · rw [engineCalls_append, createdIds_append, hids, hseg, hcalls]
      simp
  | abort t ts evs msg htask =>
    exfalso
    rcases htask.some_inv with ⟨e, he, hfatal⟩ | ⟨vpre, vm, vpost, r, hsplit, -, hnone, -, -⟩
    · rw [hok e he] at hfatal
      exact Bool.noConfusion hfatal
    · have hr := (resolvable_iff volumes t.VolumeMounts).mp (hres t (by simp)) vm
        (by rw [hsplit]; simp)
      rw [hnone] at hr
      exact Bool.noConfusion hr

theorem Event.fatal_of_engineFatal {e : Event} (h : e.engineFatal = true) : e.fatal = true := by
  cases e with
  | imagePull image res => cases res <;> simp_all [Event.engineFatal, Event.fatal, Event.failed, Event.isRemove]
  | containerCreate image cmd mounts res =>
    cases res <;> simp_all [Event.engineFatal, Event.fatal, Event.failed, Event.isRemove]
  | containerStart id err =>
    cases err <;> simp_all [Event.engineFatal, Event.fatal, Event.failed, Event.isRemove]
  | containerWait id sig =>
    rcases sig with c | (_ | c) <;>
      simp_all [Event.engineFatal, Event.fatal, Event.failed, Event.isRemove]
  | _ => simp [Event.engineFatal] at h

theorem Event.fatal_false_of_not_failed {e : Event} (h : e.failed = false) : e.fatal = false := by
  simp [Event.fatal, h]

/-- On a run of `Execute` in which no call other than a removal fails and every
volume mount names a volume, every task runs to its end. -/
theorem Execute_complete (w : World) (p : Pipeline) (args : List String) (pwd : String)
    (hpwd : w.Getwd [Call.newClient] = .ok pwd)
    (hres : ∀ t ∈ p.tasks, Resolvable p.volumes t.VolumeMounts)
    (hok : ∀ e ∈ (Execute w p args).trace, e.fatal = false) :
    (Execute w p args).err = none ∧
      (createdIds (Execute w p args).trace).length = p.tasks.length ∧
      engineCalls (Execute w p args).trace =
        (List.zipWith (taskCalls w.Join pwd p.volumes) p.tasks
          (createdIds (Execute w p args).trace)).flatten := by
  rcases Execute_shape w p args with ⟨cause, htr, -⟩ | ⟨cause, htr, -⟩ |
    ⟨pwd2, evs, readers, -, hg, htr, hrun⟩
  · have := hok (.newClient (some cause)) (by rw [htr]; simp)
    exact Bool.noConfusion this
  · have := hok (.getwd (.error cause)) (by rw [htr]; simp)
    exact Bool.noConfusion this
  · rw [hpwd] at hg
    cases hg
    have hids : createdIds (Execute w p args).trace = createdIds evs := by
      rw [htr, createdIds_append, createdIds_append, createdIds_of_close]
      simp [createdIds]
    have hcalls : engineCalls (Execute w p args).trace = engineCalls evs := by
      rw [htr, engineCalls_append, engineCalls_append, engineCalls_of_close]
      simp [engineCalls, Event.call, Call.isEngine]
    rw [hids, hcalls]
    exact hrun.complete (fun e he => hok e (by rw [htr]; simp [he])) hres

/-! ## Where a failing call can stand in a trace -/

theorem append_split {α : Type} {x y a b : List α} {e : α} (h : x ++ y = a ++ e :: b) :
    (∃ c, x = a ++ e :: c ∧ b = c ++ y) ∨ (∃ c, a = x ++ c ∧ y = c ++ e :: b) := by
  rcases List.append_eq_append_iff.mp h with ⟨c, ha, hy⟩ | ⟨c, hx, hb⟩
  · exact Or.inr ⟨c, ha, hy⟩
  · cases c with
    | nil =>
      refine Or.inr ⟨[], ?_, ?_⟩
      · simpa using hx.symm
      · simpa using hb.symm
    | cons d c =>
      simp only [List.cons_append, List.cons.injEq] at hb
      obtain ⟨rfl, rfl⟩ := hb
      exact Or.inl ⟨c, hx, rfl⟩

theorem split_last {α : Type} {P : α → Bool} {good a b : List α} {f e : α}
    (h : good ++ [f] = a ++ e :: b) (hgood : ∀ x ∈ good, P x = false) (he : P e = true) :
    a = good ∧ e = f ∧ b = [] := by
  rcases append_split h with ⟨c, hx, -⟩ | ⟨c, ha, hy⟩
  · have := hgood e (by rw [hx]; simp)
    rw [he] at this
    exact Bool.noConfusion this
  · cases c with
    | nil =>
      simp only [List.nil_append, List.cons.injEq] at hy
      exact ⟨by simpa using ha, hy.1.symm, hy.2.symm⟩
    | cons d c =>
      simp only [List.cons_append, List.cons.injEq] at hy
      have := congrArg List.length hy.2
      simp at this
      omega

theorem split_mid {α : Type} {P : α → Bool} {hd evs tl pre post : List α} {e : α}
    (h : hd ++ evs ++ tl = pre ++ e :: post) (hhd : ∀ x ∈ hd, P x = false)
    (htl : ∀ x ∈ tl, P x = false) (he : P e = true) :
    ∃ a b, evs = a ++ e :: b ∧ pre = hd ++ a ∧ post = b ++ tl := by
  rw [List.append_assoc] at h
  rcases append_split h with ⟨c, hx, -⟩ | ⟨c, hpre, hrest⟩
  · have := hhd e (by rw [hx]; simp)
    rw [he] at this
    exact Bool.noConfusion this
  · rcases append_split hrest with ⟨d, hevs, hpost⟩ | ⟨d, -, htl2⟩
    · exact ⟨c, d, hevs, hpre, hpost⟩
    · have := htl e (by rw [htl2]; simp)
      rw [he] at this
      exact Bool.noConfusion this

theorem Event.quiet_of_isMkdir {e : Event} (h : e.isMkdir = true) :
    e.engineFatal = false ∧ e.isRemove = false := by
  obtain ⟨path, perm, err, rfl⟩ := Event.isMkdir_inv h
  exact ⟨rfl, rfl⟩

theorem exists_last {α : Type} (l : List α) (x : α) : ∃ good f, x :: l = good ++ [f] := by
  rcases List.eq_nil_or_concat (x :: l) with h | ⟨good, f, h⟩
  · simp at h
  · exact ⟨good, f, by simpa using h⟩

/-- In the events of one iteration only the last one can be a failed engine call
or a removal. -/
theorem TaskRun.last {join : String → String → String} {pwd : String}
    {volumes : List Volume} {t : Task} {evs : List Event} {err : Option String}
    (h : TaskRun join pwd volumes t evs err) :
    ∃ good f, evs = good ++ [f] ∧ ∀ x ∈ good, x.engineFatal = false ∧ x.isRemove = false := by
  have hquiet : ∀ (r : Reader) (mk : List Event), (∀ x ∈ mk, x.isMkdir = true) →
      ∀ x ∈ Event.imagePull t.Image (.ok r) :: Event.copy r :: mk,
        x.engineFatal = false ∧ x.isRemove = false := by
    intro r mk hmk x hx
    simp only [List.mem_cons] at hx
    rcases hx with rfl | rfl | hx
    · exact ⟨rfl, rfl⟩
    · exact ⟨rfl, rfl⟩
    · exact Event.quiet_of_isMkdir (hmk x hx)
  cases h with
  | pullFailed cause => exact ⟨[], _, rfl, by simp⟩
  | mountFailed r mk msg hrun =>
    obtain ⟨good, f, hgf⟩ := exists_last (Event.copy r :: mk) (Event.imagePull t.Image (.ok r))
    refine ⟨good, f, hgf, ?_⟩
    intro x hx
    apply hquiet r mk hrun.all_mkdir x
    rw [hgf]
    simp [hx]
  | createFailed r mk mounts cause hrun =>
    exact ⟨Event.imagePull t.Image (.ok r) :: Event.copy r :: mk,
      .containerCreate t.Image t.Command mounts (.error cause), by simp,
      hquiet r mk hrun.all_mkdir⟩
  | startFailed r mk mounts id cause hrun =>
    refine ⟨Event.imagePull t.Image (.ok r) :: Event.copy r :: mk ++
      [.containerCreate t.Image t.Command mounts (.ok id)], .containerStart id (some cause),
      by simp, ?_⟩
    intro x hx
    rcases List.mem_append.mp hx with hx | hx
    · exact hquiet r mk hrun.all_mkdir x hx
    · simp only [List.mem_singleton] at hx
      subst hx
      exact ⟨rfl, rfl⟩
  | waitFailed r mk mounts id cause hrun =>
    refine ⟨Event.imagePull t.Image (.ok r) :: Event.copy r :: mk ++
      [.containerCreate t.Image t.Command mounts (.ok id), .containerStart id none],
      .containerWait id (.errs (some cause)), by simp, ?_⟩
    intro x hx
    rcases List.mem_append.mp hx with hx | hx
    · exact hquiet r mk hrun.all_mkdir x hx
    · simp only [List.mem_cons, List.mem_singleton, List.not_mem_nil, or_false] at hx
      rcases hx with rfl | rfl
      · exact ⟨rfl, rfl⟩
      · exact ⟨rfl, rfl⟩
  | completed r mk mounts id sig rm hrun hsig =>
    refine ⟨Event.imagePull t.Image (.ok r) :: Event.copy r :: mk ++
      [.containerCreate t.Image t.Command mounts (.ok id), .containerStart id none,
        .containerWait id sig], .containerRemove id rm, by simp, ?_⟩
    intro x hx
    rcases List.mem_append.mp hx with hx | hx
    · exact hquiet r mk hrun.all_mkdir x hx
    · simp only [List.mem_cons, List.mem_singleton, List.not_mem_nil, or_false] at hx
      rcases hx with rfl | rfl | rfl
      · exact ⟨rfl, rfl⟩
      · exact ⟨rfl, rfl⟩
      · refine ⟨?_, rfl⟩
        rcases sig with c | (_ | c)
        · rfl
        · rfl
        · exact absurd rfl (hsig c)

/-- Every iteration pulls the image of its task, once. -/
theorem TaskRun.task_pulled {join : String → String → String} {pwd : String}
    {volumes : List Volume} {t : Task} {evs : List Event} {err : Option String}
    (h : TaskRun join pwd volumes t evs err) : pulledImages evs = [t.Image] := by
  have key : ∀ (r : Reader) (mk tail : List Event), (∀ x ∈ mk, x.isMkdir = true) →
      pulledImages tail = [] →
      pulledImages (Event.imagePull t.Image (.ok r) :: Event.copy r :: mk ++ tail) =
        [t.Image] := by
    intro r mk tail hmk htail
    have : Event.imagePull t.Image (.ok r) :: Event.copy r :: mk ++ tail =
        [Event.imagePull t.Image (.ok r), Event.copy r] ++ mk ++ tail := by simp
    rw [this, pulledImages_append, pulledImages_append, pulledImages_of_mkdir mk hmk, htail]
    simp [pulledImages]
  cases h with
  | pullFailed cause => simp [pulledImages]
  | mountFailed r mk msg hrun =>
    simpa using key r mk [] hrun.all_mkdir rfl
  | createFailed r mk mounts cause hrun =>
    exact key r mk _ hrun.all_mkdir (by simp [pulledImages])
  | startFailed r mk mounts id cause hrun =>
    exact key r mk _ hrun.all_mkdir (by simp [pulledImages])
  | waitFailed r mk mounts id cause hrun =>
    exact key r mk _ hrun.all_mkdir (by simp [pulledImages])
  | completed r mk mounts id sig rm hrun hsig =>
    exact key r mk _ hrun.all_mkdir (by simp [pulledImages])

/-- The images pulled by the task loop are those of an initial segment of the
tasks, in manifest order. -/
theorem LoopRun.loop_pulled {join : String → String → String} {pwd : String}
    {volumes : List Volume} {ts : List Task} {evs : List Event} {err : Option String}
    (h : LoopRun join pwd volumes ts evs err) :
    pulledImages evs = (ts.take (pulledImages evs).length).map Task.Image := by
  induction h with
  | done => simp [pulledImages]
  | next t ts evs rest err htask _ ih =>
    rw [pulledImages_append, htask.task_pulled]
    simp only [List.singleton_append, List.length_cons, List.take_succ_cons, List.map_cons]
    rw [← ih]
  | abort t ts evs msg htask =>
    rw [htask.task_pulled]
    simp

/-- A failed pull, create, start or wait is the last event of the task loop, and
the loop returns an error. -/
theorem LoopRun.stops_at_failure {join : String → String → String} {pwd : String}
    {volumes : List Volume} {ts : List Task} {evs : List Event} {err : Option String}
    (h : LoopRun join pwd volumes ts evs err) :
    ∀ a e b, evs = a ++ e :: b → e.engineFatal = true → err.isSome = true ∧ b = [] := by
  induction h with
  | done =>
    intro a e b hsplit
    simp at hsplit
  | next t ts evs rest err htask _ ih =>
    intro a e b hsplit he
    obtain ⟨-, -, -, -, hquiet⟩ := htask.none_inv
    rcases append_split hsplit with ⟨c, hx, -⟩ | ⟨c, -, hrest⟩
    · have h1 := hquiet e (by rw [hx]; simp)
      have h2 := Event.fatal_of_engineFatal he
      rw [h1] at h2
      exact Bool.noConfusion h2
    · exact ih c e b hrest he
  | abort t ts evs msg htask =>
    intro a e b hsplit he
    obtain ⟨good, f, hgf, hgood⟩ := htask.last
    rw [hgf] at hsplit
    exact ⟨rfl, (split_last hsplit (fun x hx => (hgood x hx).1) he).2.2⟩

/-- Every create call of an iteration carries the image and the command of the
task and one bind mount per volume mount. -/
theorem TaskRun.task_creates {join : String → String → String} {pwd : String}
    {volumes : List Volume} {t : Task} {evs : List Event} {err : Option String}
    (h : TaskRun join pwd volumes t evs err) :
    ∀ image cmd mounts res, Event.containerCreate image cmd mounts res ∈ evs →
      image = t.Image ∧ cmd = t.Command ∧ Resolvable volumes t.VolumeMounts ∧
        mounts = bindMounts join pwd volumes t.VolumeMounts := by
  intro image cmd mounts res hmem
  have hhead : ∀ (r : Reader) (mk : List Event), (∀ x ∈ mk, x.isMkdir = true) →
      Event.containerCreate image cmd mounts res ∉
        Event.imagePull t.Image (.ok r) :: Event.copy r :: mk := by
    intro r mk hmk hx
    simp only [List.mem_cons, reduceCtorEq, false_or] at hx
    exact Bool.noConfusion (hmk _ hx)
  have hfound : ∀ (mk : List Event) (ms : List Mount),
      MountRun join pwd volumes t.VolumeMounts mk (.ok ms) →
      Resolvable volumes t.VolumeMounts ∧ ms = bindMounts join pwd volumes t.VolumeMounts := by
    intro mk ms hrun
    obtain ⟨hm, -, hall⟩ := hrun.ok_inv
    exact ⟨(resolvable_iff _ _).mpr hall, hm⟩
  cases h with
  | pullFailed cause => simp at hmem
  | mountFailed r mk msg hrun => exact absurd hmem (hhead r mk hrun.all_mkdir)
  | createFailed r mk ms cause hrun =>
    rcases List.mem_append.mp hmem with hx | hx
    · exact absurd hx (hhead r mk hrun.all_mkdir)
    · simp only [List.mem_singleton, Event.containerCreate.injEq] at hx
      obtain ⟨rfl, rfl, rfl, -⟩ := hx
      exact ⟨rfl, rfl, hfound mk _ hrun⟩
  | startFailed r mk ms id cause hrun =>
    rcases List.mem_append.mp hmem with hx | hx
    · exact absurd hx (hhead r mk hrun.all_mkdir)
    · simp only [List.mem_cons, Event.containerCreate.injEq, reduceCtorEq, List.not_mem_nil,
        or_false] at hx
      obtain ⟨rfl, rfl, rfl, -⟩ := hx
      exact ⟨rfl, rfl, hfound mk _ hrun⟩
  | waitFailed r mk ms id cause hrun =>
    rcases List.mem_append.mp hmem with hx | hx
    · exact absurd hx (hhead r mk hrun.all_mkdir)
    · simp only [List.mem_cons, Event.containerCreate.injEq, reduceCtorEq, List.not_mem_nil,
        or_false] at hx
      obtain ⟨rfl, rfl, rfl, -⟩ := hx
      exact ⟨rfl, rfl, hfound mk _ hrun⟩
  | completed r mk ms id sig rm hrun hsig =>
    rcases List.mem_append.mp hmem with hx | hx
    · exact absurd hx (hhead r mk hrun.all_mkdir)
    · simp only [List.mem_cons, Event.containerCreate.injEq, reduceCtorEq, List.not_mem_nil,
        or_false] at hx
      obtain ⟨rfl, rfl, rfl, -⟩ := hx
      exact ⟨rfl, rfl, hfound mk _ hrun⟩

theorem LoopRun.loop_creates {join : String → String → String} {pwd : String}
    {volumes : List Volume} {ts : List Task} {evs : List Event} {err : Option String}
    (h : LoopRun join pwd volumes ts evs err) :
    ∀ image cmd mounts res, Event.containerCreate image cmd mounts res ∈ evs →
      ∃ t ∈ ts, image = t.Image ∧ cmd = t.Command ∧ Resolvable volumes t.VolumeMounts ∧
        mounts = bindMounts join pwd volumes t.VolumeMounts := by
  induction h with
  | done => intro image cmd mounts res hmem; simp at hmem
  | next t ts evs rest err htask _ ih =>
    intro image cmd mounts res hmem
    rcases List.mem_append.mp hmem with hx | hx
    · exact ⟨t, by simp, htask.task_creates image cmd mounts res hx⟩
    · obtain ⟨u, hu, hrest⟩ := ih image cmd mounts res hx
      exact ⟨u, List.mem_cons_of_mem _ hu, hrest⟩
  | abort t ts evs msg htask =>
    intro image cmd mounts res hmem
    exact ⟨t, by simp, htask.task_creates image cmd mounts res hmem⟩

/-- The mounts the specification expects: one per resolvable volume mount, the
k-th built from the k-th volume mount and the volume the lookup finds for it. -/
theorem bindMounts_spec (join : String → String → String) (pwd : String)
    (volumes : List Volume) :
    ∀ (vms : List VolumeMount), Resolvable volumes vms →
      (bindMounts join pwd volumes vms).length = vms.length ∧
      ∀ k (hk : k < vms.length), ∃ v, findVolume volumes (vms[k]).Name = some v ∧
        (bindMounts join pwd volumes vms)[k]? =
          some { Kind := TypeBind, Source := join pwd v.HostPath,
                 Target := (vms[k]).ContainerPath } := by
  intro vms
  induction vms with
  | nil => intro _; simp [bindMounts]
  | cons vm rest ih =>
    intro hres
    have hvm := (resolvable_iff volumes (vm :: rest)).mp hres vm (by simp)
    obtain ⟨v, hv⟩ := Option.isSome_iff_exists.mp hvm
    have hrest : Resolvable volumes rest := fun u hu => hres u (List.mem_cons_of_mem _ hu)
    obtain ⟨hlen, hk⟩ := ih hrest
    rw [bindMounts_cons_some join pwd volumes vm rest v hv]
    refine ⟨by simp [hlen], ?_⟩
    intro k hklt
    cases k with
    | zero => exact ⟨v, hv, by simp⟩
    | succ k =>
      obtain ⟨u, hu, hget⟩ := hk k (by simpa using hklt)
      exact ⟨u, by simpa using hu, by simpa using hget⟩

/-- When directory creation never fails, the mount loop resolves every list of
volume mounts that all name a volume. -/
theorem mountLoop_ok (w : World) (pwd : String) (volumes : List Volume)
    (hmk : ∀ h path perm, w.MkdirAll h path perm = none) :
    ∀ (vms : List VolumeMount) (s : State) (acc : List Mount), Resolvable volumes vms →
      (mountLoop w pwd volumes vms s acc).2 = .ok (acc ++ bindMounts w.Join pwd volumes vms) := by
  intro vms
  induction vms with
  | nil => intro s acc _; simp [mountLoop, bindMounts]
  | cons vm rest ih =>
    intro s acc hres
    have hvm := (resolvable_iff volumes (vm :: rest)).mp hres vm (by simp)
    obtain ⟨v, hv⟩ := Option.isSome_iff_exists.mp hvm
    have hrest : Resolvable volumes rest := fun u hu => hres u (List.mem_cons_of_mem _ hu)
    rw [bindMounts_cons_some w.Join pwd volumes vm rest v hv]
    simp only [mountLoop, hv, hmk]
    rw [ih _ _ hrest]
    simp

/-! ## A volume mount that names no volume -/

theorem first_unresolved_unique {α : Type} {P : α → Prop} {a b a2 b2 : List α} {x x2 : α}
    (h : a ++ x :: b = a2 ++ x2 :: b2) (ha : ∀ u ∈ a, P u) (hx : ¬ P x)
    (ha2 : ∀ u ∈ a2, P u) (hx2 : ¬ P x2) : x = x2 := by
  rcases append_split h with ⟨c, hc, -⟩ | ⟨c, hc, hrest⟩
  · exact absurd (ha x2 (by rw [hc]; simp)) hx2
  · cases c with
    | nil =>
      simp only [List.nil_append, List.cons.injEq] at hrest
      exact hrest.1
    | cons d c =>
      simp only [List.cons_append, List.cons.injEq] at hrest
      exact absurd (ha2 x (by rw [hc, hrest.1]; simp)) hx

theorem LoopRun.cons_inv {join : String → String → String} {pwd : String}
    {volumes : List Volume} {t : Task} {ts : List Task} {evs : List Event}
    {err : Option String} (h : LoopRun join pwd volumes (t :: ts) evs err) :
    (∃ first rest, evs = first ++ rest ∧ TaskRun join pwd volumes t first none ∧
        LoopRun join pwd volumes ts rest err) ∨
      (∃ msg, err = some msg ∧ TaskRun join pwd volumes t evs (some msg)) := by
  cases h with
  | next _ _ first rest _ htask hloop => exact Or.inl ⟨first, rest, rfl, htask, hloop⟩
  | abort _ _ _ msg htask => exact Or.inr ⟨msg, rfl, htask⟩

theorem TaskRun.none_resolvable {join : String → String → String} {pwd : String}
    {volumes : List Volume} {t : Task} {evs : List Event}
    (h : TaskRun join pwd volumes t evs none) :
    ∀ vm ∈ t.VolumeMounts, (findVolume volumes vm.Name).isSome := by
  cases h with
  | completed r mk mounts id sig rm hrun hsig => exact hrun.ok_inv.2.2

theorem Mentions_suffix (a b : String) : Mentions (a ++ b) b := by
  unfold Mentions
  rw [String.data_append]
  exact (List.suffix_append a.data b.data).isInfix

/-- When the first volume mount that names no volume stands in task `t`, after
the tasks `pre`, and no call other than a removal fails, the tasks of `pre` run
to their end, `t` is pulled, and the loop stops with the missing-volume error. -/
theorem LoopRun.missing_volume {join : String → String → String} {pwd : String}
    {volumes : List Volume} {t : Task} {post : List Task}
    {vpre vpost : List VolumeMount} {vm : VolumeMount}
    (hmounts : t.VolumeMounts = vpre ++ vm :: vpost)
    (hvpre : ∀ u ∈ vpre, (findVolume volumes u.Name).isSome)
    (hmissing : findVolume volumes vm.Name = none) :
    ∀ (pre : List Task) (evs : List Event) (err : Option String),
      LoopRun join pwd volumes (pre ++ t :: post) evs err →
      (∀ e ∈ evs, e.fatal = false) →
      (∀ u ∈ pre, Resolvable volumes u.VolumeMounts) →
      err = some ("failed to find volume: " ++ vm.Name) ∧
        (createdIds evs).length = pre.length ∧
        engineCalls evs =
          (List.zipWith (taskCalls join pwd volumes) pre (createdIds evs)).flatten ++
            [.imagePull t.Image] := by
  have hnot : ¬ (findVolume volumes vm.Name).isSome = true := by simp [hmissing]
  intro pre
  induction pre with
  | nil =>
    intro evs err h hok _
    rcases LoopRun.cons_inv (by simpa using h) with
      ⟨first, rest, -, htask, -⟩ | ⟨msg, herr, htask⟩
    · exact absurd (htask.none_resolvable vm (by rw [hmounts]; simp)) hnot
    · rcases htask.some_inv with ⟨e, he, hfatal⟩ |
        ⟨vpre2, vm2, vpost2, r, hsplit, hall, hnone, hevs, hmsg⟩
      · rw [hok e he] at hfatal
        exact Bool.noConfusion hfatal
      · have hsame : vm = vm2 :=
          first_unresolved_unique (P := fun u => (findVolume volumes u.Name).isSome = true)
            (hmounts.symm.trans hsplit) hvpre hnot hall (by simp [hnone])
        subst hsame
        have hmkdir := mkdirs_isMkdir (bindMounts join pwd volumes vpre2)
        have hsplit2 : evs = [Event.imagePull t.Image (.ok r), Event.copy r] ++
            mkdirs (bindMounts join pwd volumes vpre2) := by rw [hevs]; simp
        refine ⟨by rw [herr, hmsg], ?_, ?_⟩
        · rw [hsplit2, createdIds_append, createdIds_of_mkdir _ hmkdir]
          simp [createdIds]
        · rw [hsplit2, engineCalls_append, createdIds_append, engineCalls_of_mkdir _ hmkdir,
            createdIds_of_mkdir _ hmkdir]
          simp [engineCalls, createdIds, Event.call, Call.isEngine]
  | cons u pre ih =>
    intro evs err h hok hpre
    rcases LoopRun.cons_inv (by simpa using h) with
      ⟨first, rest, hevs, htask, hloop⟩ | ⟨msg, -, htask⟩
    · subst hevs
      obtain ⟨herr, hlen, hcalls⟩ := ih rest err hloop
        (fun e he => hok e (List.mem_append_right _ he))
        (fun x hx => hpre x (List.mem_cons_of_mem _ hx))
      obtain ⟨id, hids, hseg, -, -⟩ := htask.none_inv
      refine ⟨herr, ?_, ?_⟩
      · rw [createdIds_append, hids]
        simp [hlen]
      · rw [engineCalls_append, createdIds_append, hids, hseg, hcalls]
        simp
    · exfalso
      rcases htask.some_inv with ⟨e, he, hfatal⟩ | ⟨vpre2, vm2, vpost2, r, hsplit, -, hnone, -, -⟩
      · rw [hok e he] at hfatal
        exact Bool.noConfusion hfatal
      · have hr := (resolvable_iff volumes u.VolumeMounts).mp (hpre u (by simp)) vm2
          (by rw [hsplit]; simp)
        rw [hnone] at hr
        exact Bool.noConfusion hr

/-! ## Removal comes after a successful wait -/

theorem head_quiet (image : String) (r : Reader) (mk : List Event)
    (hmk : ∀ x ∈ mk, x.isMkdir = true) :
    ∀ x ∈ Event.imagePull image (.ok r) :: Event.copy r :: mk,
      x.engineFatal = false ∧ x.isRemove = false ∧
        (∀ id err, x ≠ .containerStart id err) ∧ (∀ id sig, x ≠ .containerWait id sig) := by
  intro x hx
  simp only [List.mem_cons] at hx
  rcases hx with rfl | rfl | hx
  · exact ⟨rfl, rfl, by simp, by simp⟩
  · exact ⟨rfl, rfl, by simp, by simp⟩
  · obtain ⟨path, perm, err, rfl⟩ := Event.isMkdir_inv (hmk x hx)
    exact ⟨rfl, rfl, by simp, by simp⟩

/-- The events of one iteration split into a last event and the events before
it, of which none is a failed engine call or a removal; a failed start comes
right after the successful create of its container, a failed wait right after
the create and the start, a removal right after a successful wait. -/
theorem TaskRun.last_inv {join : String → String → String} {pwd : String}
    {volumes : List Volume} {t : Task} {evs : List Event} {err : Option String}
    (h : TaskRun join pwd volumes t evs err) :
    ∃ good f, evs = good ++ [f] ∧
      (∀ x ∈ good, x.engineFatal = false ∧ x.isRemove = false) ∧
      (∀ id cause, f = .containerStart id (some cause) →
        ∃ a image cmd mounts, good = a ++ [.containerCreate image cmd mounts (.ok id)]) ∧
      (∀ id cause, f = .containerWait id (.errs (some cause)) →
        ∃ a image cmd mounts,
          good = a ++ [.containerCreate image cmd mounts (.ok id), .containerStart id none]) ∧
      (∀ id rm, f = .containerRemove id rm →
        ∃ a sig, good = a ++ [.containerWait id sig] ∧ (∀ c, sig ≠ .errs (some c)) ∧
          id ∈ createdIds a) := by
  cases h with
  | pullFailed cause =>
    exact ⟨[], .imagePull t.Image (.error cause), rfl, by simp, by simp, by simp, by simp⟩
  | mountFailed r mk msg hrun =>
    obtain ⟨good, f, hgf⟩ := exists_last (Event.copy r :: mk) (Event.imagePull t.Image (.ok r))
    have hq := head_quiet t.Image r mk hrun.all_mkdir
    have hf := hq f (by rw [hgf]; simp)
    refine ⟨good, f, hgf, ?_, ?_, ?_, ?_⟩
    · intro x hx
      have := hq x (by rw [hgf]; simp [hx])
      exact ⟨this.1, this.2.1⟩
    · intro id cause hfe
      exact absurd hfe (hf.2.2.1 id _)
    · intro id cause hfe
      exact absurd hfe (hf.2.2.2 id _)
    · intro id rm hfe
      subst hfe
      exact Bool.noConfusion hf.2.1
  | createFailed r mk mounts cause hrun =>
    have hq := head_quiet t.Image r mk hrun.all_mkdir
    exact ⟨Event.imagePull t.Image (.ok r) :: Event.copy r :: mk,
      .containerCreate t.Image t.Command mounts (.error cause), by simp,
      fun x hx => ⟨(hq x hx).1, (hq x hx).2.1⟩, by simp, by simp, by simp⟩
  | startFailed r mk mounts id cause hrun =>
    have hq := head_quiet t.Image r mk hrun.all_mkdir
    refine ⟨Event.imagePull t.Image (.ok r) :: Event.copy r :: mk ++
      [.containerCreate t.Image t.Command mounts (.ok id)], .containerStart id (some cause),
      by simp, ?_, ?_, by simp, by simp⟩
    · intro x hx
      rcases List.mem_append.mp hx with hx | hx
      · exact ⟨(hq x hx).1, (hq x hx).2.1⟩
      · simp only [List.mem_singleton] at hx
        subst hx
        exact ⟨rfl, rfl⟩
    · intro id2 cause2 hfe
      simp only [Event.containerStart.injEq] at hfe
      obtain ⟨rfl, -⟩ := hfe
      exact ⟨_, _, _, _, rfl⟩
  | waitFailed r mk mounts id cause hrun =>
    have hq := head_quiet t.Image r mk hrun.all_mkdir
    refine ⟨Event.imagePull t.Image (.ok r) :: Event.copy r :: mk ++
      [.containerCreate t.Image t.Command mounts (.ok id), .containerStart id none],
      .containerWait id (.errs (some cause)), by simp, ?_, by simp, ?_, by simp⟩
    · intro x hx
      rcases List.mem_append.mp hx with hx | hx
      · exact ⟨(hq x hx).1, (hq x hx).2.1⟩
      · simp only [List.mem_cons, List.mem_singleton, List.not_mem_nil, or_false] at hx
        rcases hx with rfl | rfl
        · exact ⟨rfl, rfl⟩
        · exact ⟨rfl, rfl⟩
    · intro id2 cause2 hfe
      simp only [Event.containerWait.injEq] at hfe
      obtain ⟨rfl, -⟩ := hfe
      exact ⟨Event.imagePull t.Image (.ok r) :: Event.copy r :: mk, t.Image, t.Command, mounts,
        by simp⟩
  | completed r mk mounts id sig rm hrun hsig =>
    have hq := head_quiet t.Image r mk hrun.all_mkdir
    refine ⟨Event.imagePull t.Image (.ok r) :: Event.copy r :: mk ++
      [.containerCreate t.Image t.Command mounts (.ok id), .containerStart id none,
        .containerWait id sig], .containerRemove id rm, by simp, ?_, by simp, by simp, ?_⟩
    · intro x hx
      rcases List.mem_append.mp hx with hx | hx
      · exact ⟨(hq x hx).1, (hq x hx).2.1⟩
      · simp only [List.mem_cons, List.mem_singleton, List.not_mem_nil, or_false] at hx
        rcases hx with rfl | rfl | rfl
        · exact ⟨rfl, rfl⟩
        · exact ⟨rfl, rfl⟩
        · refine ⟨?_, rfl⟩
          rcases sig with c | (_ | c)
          · rfl
          · rfl
          · exact absurd rfl (hsig c)
    · intro id2 rm2 hfe
      simp only [Event.containerRemove.injEq] at hfe
      obtain ⟨rfl, -⟩ := hfe
      refine ⟨Event.imagePull t.Image (.ok r) :: Event.copy r :: mk ++
        [.containerCreate t.Image t.Command mounts (.ok id), .containerStart id none], sig,
        by simp, hsig, ?_⟩
      rw [createdIds_append]
      simp [createdIds]

/-- In the task loop every removal comes right after a successful wait on the
same identifier, which a create handed out before. -/
theorem LoopRun.remove_inv {join : String → String → String} {pwd : String}
    {volumes : List Volume} {ts : List Task} {evs : List Event} {err : Option String}
    (h : LoopRun join pwd volumes ts evs err) :
    ∀ a id rm b, evs = a ++ Event.containerRemove id rm :: b →
      ∃ a2 sig, a = a2 ++ [.containerWait id sig] ∧ (∀ c, sig ≠ .errs (some c)) ∧
        id ∈ createdIds a2 := by
  have one : ∀ (t : Task) (evs : List Event) (err : Option String),
      TaskRun join pwd volumes t evs err →
      ∀ a id rm b, evs = a ++ Event.containerRemove id rm :: b →
        ∃ a2 sig, a = a2 ++ [.containerWait id sig] ∧ (∀ c, sig ≠ .errs (some c)) ∧
          id ∈ createdIds a2 := by
    intro t evs err htask a id rm b hsplit
    obtain ⟨good, f, hgf, hgood, -, -, hrem⟩ := htask.last_inv
    rw [hgf] at hsplit
    obtain ⟨ha, hf, -⟩ := split_last (P := Event.isRemove) hsplit
      (fun x hx => (hgood x hx).2) rfl
    rw [ha]
    exact hrem id rm hf.symm
  induction h with
  | done => intro a id rm b hsplit; simp at hsplit
  | next t ts evs rest err htask _ ih =>
    intro a id rm b hsplit
    rcases append_split hsplit with ⟨c, hx, -⟩ | ⟨c, ha, hrest⟩
    · exact one t evs none htask a id rm c hx
    · obtain ⟨a2, sig, hc, hsig, hid⟩ := ih c id rm b hrest
      refine ⟨evs ++ a2, sig, by rw [ha, hc]; simp, hsig, ?_⟩
      rw [createdIds_append]
      exact List.mem_append_right _ hid
  | abort t ts evs msg htask => exact one t evs _ htask

/-- In the task loop a failed start comes right after the successful create of
its container, and a failed wait right after that create and the start. -/
theorem LoopRun.failure_inv {join : String → String → String} {pwd : String}
    {volumes : List Volume} {ts : List Task} {evs : List Event} {err : Option String}
    (h : LoopRun join pwd volumes ts evs err) :
    ∀ a e b, evs = a ++ e :: b → e.engineFatal = true →
      (∀ id cause, e = .containerStart id (some cause) →
        ∃ a2 image cmd mounts, a = a2 ++ [.containerCreate image cmd mounts (.ok id)]) ∧
      (∀ id cause, e = .containerWait id (.errs (some cause)) →
        ∃ a2 image cmd mounts,
          a = a2 ++ [.containerCreate image cmd mounts (.ok id), .containerStart id none]) := by
  induction h with
  | done => intro a e b hsplit; simp at hsplit
  | next t ts evs rest err htask _ ih =>
    intro a e b hsplit he
    obtain ⟨-, -, -, -, hquiet⟩ := htask.none_inv
    rcases append_split hsplit with ⟨c, hx, -⟩ | ⟨c, ha, hrest⟩
    · have h1 := hquiet e (by rw [hx]; simp)
      have h2 := Event.fatal_of_engineFatal he
      rw [h1] at h2
      exact Bool.noConfusion h2
    · obtain ⟨hstart, hwait⟩ := ih c e b hrest he
      constructor
      · intro id cause hfe
        obtain ⟨a2, image, cmd, mounts, hc⟩ := hstart id cause hfe
        exact ⟨evs ++ a2, image, cmd, mounts, by rw [ha, hc]; simp⟩
      · intro id cause hfe
        obtain ⟨a2, image, cmd, mounts, hc⟩ := hwait id cause hfe
        exact ⟨evs ++ a2, image, cmd, mounts, by rw [ha, hc]; simp⟩
  | abort t ts evs msg htask =>
    intro a e b hsplit he
    obtain ⟨good, f, hgf, hgood, hstart, hwait, -⟩ := htask.last_inv
    rw [hgf] at hsplit
    obtain ⟨ha, hf, -⟩ := split_last (P := Event.engineFatal) hsplit
      (fun x hx => (hgood x hx).1) he
    subst ha hf
    exact ⟨hstart, hwait⟩

/-! ## Runs in two worlds that differ in the removals only -/

theorem mountLoop_sim (w1 w2 : World) (hM : w1.MkdirAll = w2.MkdirAll) (hJ : w1.Join = w2.Join)
    (pwd : String) (volumes : List Volume) :
    ∀ (vms : List VolumeMount) (s1 s2 : State) (acc : List Mount),
      s1.calls = s2.calls → s1.deferred = s2.deferred →
      (mountLoop w1 pwd volumes vms s1 acc).1.calls =
          (mountLoop w2 pwd volumes vms s2 acc).1.calls ∧
        (mountLoop w1 pwd volumes vms s1 acc).1.deferred =
          (mountLoop w2 pwd volumes vms s2 acc).1.deferred ∧
        (mountLoop w1 pwd volumes vms s1 acc).2 = (mountLoop w2 pwd volumes vms s2 acc).2 := by
  intro vms
  induction vms with
  | nil => intro s1 s2 acc hc hd; simp [mountLoop, hc, hd]
  | cons vm rest ih =>
    intro s1 s2 acc hc hd
    cases hf : findVolume volumes vm.Name with
    | none => simp [mountLoop, hf, hc, hd]
    | some v =>
      cases hm : w2.MkdirAll s2.calls (w2.Join pwd v.HostPath) 0o755 with
      | some cause => simp [mountLoop, hf, hM, hJ, hc, hd, hm, Event.call]
      | none =>
        have h1 : mountLoop w1 pwd volumes (vm :: rest) s1 acc =
            mountLoop w1 pwd volumes rest (s1.emit (.mkdirAll (w2.Join pwd v.HostPath) 0o755 none))
              (acc ++ [{ Kind := TypeBind, Source := w2.Join pwd v.HostPath,
                         Target := vm.ContainerPath }]) := by
          simp [mountLoop, hf, hM, hJ, hc, hm]
        have h2 : mountLoop w2 pwd volumes (vm :: rest) s2 acc =
            mountLoop w2 pwd volumes rest (s2.emit (.mkdirAll (w2.Join pwd v.HostPath) 0o755 none))
              (acc ++ [{ Kind := TypeBind, Source := w2.Join pwd v.HostPath,
                         Target := vm.ContainerPath }]) := by
          simp [mountLoop, hf, hm]
        rw [h1, h2]
        exact ih _ _ _ (by simp [hc]) (by simp [hd])

theorem runTask_sim (w1 w2 : World) (hI : w1.ImagePull = w2.ImagePull)
    (hM : w1.MkdirAll = w2.MkdirAll) (hC : w1.ContainerCreate = w2.ContainerCreate)
    (hS : w1.ContainerStart = w2.ContainerStart) (hW : w1.ContainerWait = w2.ContainerWait)
    (hJ : w1.Join = w2.Join) (pwd : String) (volumes : List Volume) (t : Task)
    (s1 s2 : State) (hc : s1.calls = s2.calls) (hd : s1.deferred = s2.deferred) :
    (runTask w1 pwd volumes t s1).1.calls = (runTask w2 pwd volumes t s2).1.calls ∧
      (runTask w1 pwd volumes t s1).1.deferred = (runTask w2 pwd volumes t s2).1.deferred ∧
      (runTask w1 pwd volumes t s1).2 = (runTask w2 pwd volumes t s2).2 := by
  unfold runTask
  rw [hI, hc]
  cases hp : w2.ImagePull s2.calls t.Image with
  | error e => simp [hc, hd, Event.call]
  | ok r =>
    dsimp only
    obtain ⟨hmc, hmd, hmr⟩ := mountLoop_sim w1 w2 hM hJ pwd volumes t.VolumeMounts
      (((s1.emit (.imagePull t.Image (.ok r))).defer r).emit (.copy r))
      (((s2.emit (.imagePull t.Image (.ok r))).defer r).emit (.copy r)) []
      (by simp [hc]) (by simp [hd])
    revert hmc hmd hmr
    generalize mountLoop w1 pwd volumes t.VolumeMounts
      (((s1.emit (.imagePull t.Image (.ok r))).defer r).emit (.copy r)) [] = m1
    generalize mountLoop w2 pwd volumes t.VolumeMounts
      (((s2.emit (.imagePull t.Image (.ok r))).defer r).emit (.copy r)) [] = m2
    obtain ⟨a1, r1⟩ := m1
    obtain ⟨a2, r2⟩ := m2
    intro hmc hmd hmr
    simp only at hmc hmd hmr
    subst hmr
    cases r1 with
    | error msg => exact ⟨hmc, hmd, rfl⟩
    | ok mounts =>
      simp only [hC, hS, hW, waitForCompletion_eq, State.calls_emit, hmc]
      cases hcr : w2.ContainerCreate a2.calls t.Image t.Command mounts with
      | error e => simp [hmc, hmd, Event.call]
      | ok id =>
        simp only [Event.call]
        cases hst : w2.ContainerStart (a2.calls ++ [.containerCreate t.Image t.Command mounts]) id with
        | some e => simp [hmc, hmd, Event.call]
        | none =>
          simp only []
          generalize w2.ContainerWait
            (a2.calls ++ [.containerCreate t.Image t.Command mounts] ++ [.containerStart id]) id =
            sig
          rcases sig with code | (_ | cause)
          · simp only [State.calls_emit, Event.call, hmc]
            refine ⟨?_, ?_, ?_⟩ <;>
              (split <;> split <;> simp [hmc, hmd, Event.call])
          · simp only [State.calls_emit, Event.call, hmc]
            refine ⟨?_, ?_, ?_⟩ <;>
              (split <;> split <;> simp [hmc, hmd, Event.call])
          · simp [hmc, hmd, Event.call]

theorem taskLoop_sim (w1 w2 : World) (hI : w1.ImagePull = w2.ImagePull)
    (hM : w1.MkdirAll = w2.MkdirAll) (hC : w1.ContainerCreate = w2.ContainerCreate)
    (hS : w1.ContainerStart = w2.ContainerStart) (hW : w1.ContainerWait = w2.ContainerWait)
    (hJ : w1.Join = w2.Join) (pwd : String) (volumes : List Volume) :
    ∀ (ts : List Task) (s1 s2 : State), s1.calls = s2.calls → s1.deferred = s2.deferred →
      (taskLoop w1 pwd volumes ts s1).1.calls = (taskLoop w2 pwd volumes ts s2).1.calls ∧
        (taskLoop w1 pwd volumes ts s1).1.deferred =
          (taskLoop w2 pwd volumes ts s2).1.deferred ∧
        (taskLoop w1 pwd volumes ts s1).2 = (taskLoop w2 pwd volumes ts s2).2 := by
  intro ts
  induction ts with
  | nil => intro s1 s2 hc hd; exact ⟨hc, hd, rfl⟩
  | cons t rest ih =>
    intro s1 s2 hc hd
    obtain ⟨hrc, hrd, hre⟩ := runTask_sim w1 w2 hI hM hC hS hW hJ pwd volumes t s1 s2 hc hd
    unfold taskLoop
    revert hrc hrd hre
    generalize runTask w1 pwd volumes t s1 = m1
    generalize runTask w2 pwd volumes t s2 = m2
    obtain ⟨a1, e1⟩ := m1
    obtain ⟨a2, e2⟩ := m2
    intro hrc hrd hre
    simp only at hrc hrd hre
    subst hre
    cases e1 with
    | some msg => exact ⟨hrc, hrd, rfl⟩
    | none => exact ih a1 a2 hrc hrd

theorem State.calls_ret (s : State) (err : Option String) :
    (s.ret err).trace.map Event.call = s.calls ++ s.deferred.map Call.close := by
  simp [State.ret, State.calls, Event.call, Function.comp_def]

/-! ## What the returned error says, and when streams are closed -/

theorem Event.engineFatal_of_wrapped {e : Event} {step cause : String}
    (h : e.wrapped = some (step, cause)) :
    e.engineFatal = true ∨ (∃ c, e = .newClient (some c)) ∨ (∃ c, e = .getwd (.error c)) := by
  cases e with
  | newClient err =>
    cases err with
    | none => simp [Event.wrapped] at h
    | some c => exact Or.inr (Or.inl ⟨c, rfl⟩)
  | getwd res =>
    cases res with
    | ok v => simp [Event.wrapped] at h
    | error c => exact Or.inr (Or.inr ⟨c, rfl⟩)
  | imagePull image res =>
    cases res with
    | ok v => simp [Event.wrapped] at h
    | error c => exact Or.inl rfl
  | containerCreate image cmd mounts res =>
    cases res with
    | ok v => simp [Event.wrapped] at h
    | error c => exact Or.inl rfl
  | containerStart id err =>
    cases err with
    | none => simp [Event.wrapped] at h
    | some c => exact Or.inl rfl
  | containerWait id sig =>
    rcases sig with c | (_ | c)
    · simp [Event.wrapped] at h
    · simp [Event.wrapped] at h
    · exact Or.inl rfl
  | copy r => simp [Event.wrapped] at h
  | mkdirAll path perm err => simp [Event.wrapped] at h
  | containerRemove id err => simp [Event.wrapped] at h
  | close r => simp [Event.wrapped] at h

/-- When the last event of an iteration is a failed pull, create, start or wait,
the iteration returns the cause behind the text of that step. -/
theorem TaskRun.last_wrapped {join : String → String → String} {pwd : String}
    {volumes : List Volume} {t : Task} {evs : List Event} {err : Option String}
    (h : TaskRun join pwd volumes t evs err) :
    ∀ good f, evs = good ++ [f] → ∀ step cause, f.wrapped = some (step, cause) →
      err = some (step ++ cause) := by
  intro good f hsplit step cause hw
  have hlast : ∀ (pre : List Event) (y : Event), evs = pre ++ [y] → f = y := by
    intro pre y hy
    rw [hy] at hsplit
    have := List.append_inj_right' hsplit rfl
    simpa using this.symm
  cases h with
  | pullFailed c =>
    have := hlast [] _ rfl
    subst this
    simp only [Event.wrapped, Option.some.injEq, Prod.mk.injEq] at hw
    obtain ⟨rfl, rfl⟩ := hw
    rfl
  | mountFailed r mk msg hrun =>
    have hq := head_quiet t.Image r mk hrun.all_mkdir f (by rw [hsplit]; simp)
    rcases Event.engineFatal_of_wrapped hw with hf | ⟨c, rfl⟩ | ⟨c, rfl⟩
    · rw [hq.1] at hf
      exact Bool.noConfusion hf
    · have hmem : Event.newClient (some c) ∈
          Event.imagePull t.Image (.ok r) :: Event.copy r :: mk := by rw [hsplit]; simp
      simp only [List.mem_cons, reduceCtorEq, false_or] at hmem
      exact Bool.noConfusion (hrun.all_mkdir _ hmem)
    · have hmem : Event.getwd (.error c) ∈
          Event.imagePull t.Image (.ok r) :: Event.copy r :: mk := by rw [hsplit]; simp
      simp only [List.mem_cons, reduceCtorEq, false_or] at hmem
      exact Bool.noConfusion (hrun.all_mkdir _ hmem)
  | createFailed r mk mounts c hrun =>
    have := hlast (Event.imagePull t.Image (.ok r) :: Event.copy r :: mk)
      (.containerCreate t.Image t.Command mounts (.error c)) (by simp)
    subst this
    simp only [Event.wrapped, Option.some.injEq, Prod.mk.injEq] at hw
    obtain ⟨rfl, rfl⟩ := hw
    rfl
  | startFailed r mk mounts id c hrun =>
    have := hlast (Event.imagePull t.Image (.ok r) :: Event.copy r :: mk ++
      [.containerCreate t.Image t.Command mounts (.ok id)])
      (.containerStart id (some c)) (by simp)
    subst this
    simp only [Event.wrapped, Option.some.injEq, Prod.mk.injEq] at hw
    obtain ⟨rfl, rfl⟩ := hw
    rfl
  | waitFailed r mk mounts id c hrun =>
    have := hlast (Event.imagePull t.Image (.ok r) :: Event.copy r :: mk ++
      [.containerCreate t.Image t.Command mounts (.ok id), .containerStart id none])
      (.containerWait id (.errs (some c))) (by simp)
    subst this
    simp only [Event.wrapped, Option.some.injEq, Prod.mk.injEq] at hw
    obtain ⟨rfl, rfl⟩ := hw
    rfl
  | completed r mk mounts id sig rm hrun hsig =>
    have := hlast (Event.imagePull t.Image (.ok r) :: Event.copy r :: mk ++
      [.containerCreate t.Image t.Command mounts (.ok id), .containerStart id none,
        .containerWait id sig]) (.containerRemove id rm) (by simp)
    subst this
    simp [Event.wrapped] at hw

theorem LoopRun.wrapped_inv {join : String → String → String} {pwd : String}
    {volumes : List Volume} {ts : List Task} {evs : List Event} {err : Option String}
    (h : LoopRun join pwd volumes ts evs err) :
    ∀ a e b, evs = a ++ e :: b → e.engineFatal = true →
      ∀ step cause, e.wrapped = some (step, cause) → err = some (step ++ cause) := by
  induction h with
  | done => intro a e b hsplit; simp at hsplit
  | next t ts evs rest err htask _ ih =>
    intro a e b hsplit he
    obtain ⟨-, -, -, -, hquiet⟩ := htask.none_inv
    rcases append_split hsplit with ⟨c, hx, -⟩ | ⟨c, -, hrest⟩
    · have h1 := hquiet e (by rw [hx]; simp)
      have h2 := Event.fatal_of_engineFatal he
      rw [h1] at h2
      exact Bool.noConfusion h2
    · exact ih c e b hrest he
  | abort t ts evs msg htask =>
    intro a e b hsplit he step cause hw
    obtain ⟨good, f, hgf, hgood, -, -, -⟩ := htask.last_inv
    have hsplit2 := hsplit
    rw [hgf] at hsplit2
    obtain ⟨-, hf, -⟩ := split_last (P := Event.engineFatal) hsplit2
      (fun x hx => (hgood x hx).1) he
    subst hf
    exact htask.last_wrapped good e hgf step cause hw

/-- The task loop makes no other calls than pulls, copies, directory creations,
creates, starts, waits and removals; in particular it closes no stream. -/
theorem LoopRun.in_loop {join : String → String → String} {pwd : String}
    {volumes : List Volume} {ts : List Task} {evs : List Event} {err : Option String}
    (h : LoopRun join pwd volumes ts evs err) : ∀ x ∈ evs, x.inLoop = true := by
  have one : ∀ (t : Task) (evs : List Event) (err : Option String),
      TaskRun join pwd volumes t evs err → ∀ x ∈ evs, x.inLoop = true := by
    intro t evs err htask x hx
    have hhead : ∀ (r : Reader) (mk : List Event), (∀ y ∈ mk, y.isMkdir = true) →
        ∀ y ∈ Event.imagePull t.Image (.ok r) :: Event.copy r :: mk, y.inLoop = true := by
      intro r mk hmk y hy
      simp only [List.mem_cons] at hy
      rcases hy with rfl | rfl | hy
      · rfl
      · rfl
      · obtain ⟨path, perm, e, rfl⟩ := Event.isMkdir_inv (hmk y hy)
        rfl
    cases htask with
    | pullFailed c =>
      simp only [List.mem_singleton] at hx
      subst hx
      rfl
    | mountFailed r mk msg hrun => exact hhead r mk hrun.all_mkdir x hx
    | createFailed r mk mounts c hrun =>
      rcases List.mem_append.mp hx with hx | hx
      · exact hhead r mk hrun.all_mkdir x hx
      · simp only [List.mem_singleton] at hx
        subst hx
        rfl
    | startFailed r mk mounts id c hrun =>
      rcases List.mem_append.mp hx with hx | hx
      · exact hhead r mk hrun.all_mkdir x hx
      · simp only [List.mem_cons, List.mem_singleton, List.not_mem_nil, or_false] at hx
        rcases hx with rfl | rfl <;> rfl
    | waitFailed r mk mounts id c hrun =>
      rcases List.mem_append.mp hx with hx | hx
      · exact hhead r mk hrun.all_mkdir x hx
      · simp only [List.mem_cons, List.mem_singleton, List.not_mem_nil, or_false] at hx
        rcases hx with rfl | rfl | rfl <;> rfl
    | completed r mk mounts id sig rm hrun hsig =>
      rcases List.mem_append.mp hx with hx | hx
      · exact hhead r mk hrun.all_mkdir x hx
      · simp only [List.mem_cons, List.mem_singleton, List.not_mem_nil, or_false] at hx
        rcases hx with rfl | rfl | rfl | rfl <;> rfl
  induction h with
  | done => intro x hx; simp at hx
  | next t ts evs rest err htask _ ih =>
    intro x hx
    rcases List.mem_append.mp hx with hx | hx
    · exact one t evs none htask x hx
    · exact ih x hx
  | abort t ts evs msg htask => exact one t evs _ htask

/-- Whenever a call of `Execute` other than a directory creation fails fatally,
the error returned is the cause behind the text of the failing step, and
therefore contains the cause. -/
theorem Execute_wraps_cause (w : World) (p : Pipeline) (args : List String) :
    ∀ e ∈ (Execute w p args).trace, ∀ step cause, e.wrapped = some (step, cause) →
      (Execute w p args).err = some (step ++ cause) ∧ Mentions (step ++ cause) cause := by
  intro e he step cause hw
  refine ⟨?_, Mentions_suffix step cause⟩
  rcases Execute_shape w p args with ⟨c, htr, herr⟩ | ⟨c, htr, herr⟩ |
    ⟨pwd, evs, readers, -, -, htr, hrun⟩
  · rw [htr, List.mem_singleton] at he
    subst he
    simp only [Event.wrapped, Option.some.injEq, Prod.mk.injEq] at hw
    obtain ⟨rfl, rfl⟩ := hw
    exact herr
  · rw [htr] at he
    simp only [List.mem_cons, List.mem_singleton, List.not_mem_nil, or_false] at he
    rcases he with rfl | rfl
    · simp [Event.wrapped] at hw
    · simp only [Event.wrapped, Option.some.injEq, Prod.mk.injEq] at hw
      obtain ⟨rfl, rfl⟩ := hw
      exact herr
  · rw [htr] at he
    simp only [List.mem_append, List.mem_cons, List.mem_singleton, List.not_mem_nil,
      or_false, List.mem_map] at he
    rcases he with ((rfl | rfl) | he) | ⟨r, -, rfl⟩
    · simp [Event.wrapped] at hw
    · simp [Event.wrapped] at hw
    · obtain ⟨a, b, hab⟩ := List.append_of_mem he
      have hfatal : e.engineFatal = true := by
        rcases Event.engineFatal_of_wrapped hw with hf | ⟨c, rfl⟩ | ⟨c, rfl⟩
        · exact hf
        · exact Bool.noConfusion (hrun.in_loop _ he)
        · exact Bool.noConfusion (hrun.in_loop _ he)
      exact hrun.wrapped_inv a e b hab hfatal step cause hw
    · simp [Event.wrapped] at hw

/-- Every close of a pull-progress stream is followed by closes only: the
streams are released when `Execute` returns, never between two tasks. -/
theorem Execute_closes_last (w : World) (p : Pipeline) (args : List String) :
    ∀ a r b, (Execute w p args).trace = a ++ Event.close r :: b →
      ∀ x ∈ b, x.isClose = true := by
  intro a r b hsplit x hx
  rcases Execute_shape w p args with ⟨c, htr, -⟩ | ⟨c, htr, -⟩ |
    ⟨pwd, evs, readers, -, -, htr, hrun⟩
  · have hmem : Event.close r ∈ (Execute w p args).trace := by rw [hsplit]; simp
    rw [htr] at hmem
    simp at hmem
  · have hmem : Event.close r ∈ (Execute w p args).trace := by rw [hsplit]; simp
    rw [htr] at hmem
    simp at hmem
  · rw [htr] at hsplit
    rcases append_split hsplit with ⟨c, hc, -⟩ | ⟨c, -, hrest⟩
    · exfalso
      have hmem : Event.close r ∈ [Event.newClient none, Event.getwd (.ok pwd)] ++ evs := by
        rw [hc]; simp
      simp only [List.mem_append, List.mem_cons, reduceCtorEq, List.not_mem_nil, or_self,
        false_or] at hmem
      exact Bool.noConfusion (hrun.in_loop _ hmem)
    · have hin : x ∈ readers.map Event.close := by rw [hrest]; simp [hx]
      obtain ⟨r2, -, rfl⟩ := List.mem_map.mp hin
      rfl

/-! ## The claims -/

/-- C1: when every volume mount names a volume and every collaborator call made
during the run succeeds, `Execute` returns no error, there is one created
identifier per task, and the engine calls are, task after task in manifest
order, pull, create (image, command, resolved bind mounts), start, wait and
remove, the last three on the identifier that the create of that task
returned. -/
theorem Execute_runs_every_task_in_order (w : World) (p : Pipeline) (args : List String)
    (pwd : String)
    (hpwd : w.Getwd [Call.newClient] = .ok pwd)
    (hres : ∀ t ∈ p.tasks, Resolvable p.volumes t.VolumeMounts)
    (hok : ∀ e ∈ (Execute w p args).trace, e.failed = false) :
    (Execute w p args).err = none ∧
      (createdIds (Execute w p args).trace).length = p.tasks.length ∧
      engineCalls (Execute w p args).trace =
        (List.zipWith (taskCalls w.Join pwd p.volumes) p.tasks
          (createdIds (Execute w p args).trace)).flatten :=
  Execute_complete w p args pwd hpwd hres
    (fun e he => Event.fatal_false_of_not_failed (hok e he))

/-- C1 at the example of the specification: the directory `/work/data` is
created, `alpine` is pulled, a container is created with the one bind mount
`/work/data -> /data`, started, waited for and removed, and no error is
returned. -/
theorem Execute_runs_every_task_in_order_witness :
    (Execute (calmWorld 0) (NewPipeline exampleManifest) []).err = none ∧
    engineCalls (Execute (calmWorld 0) (NewPipeline exampleManifest) []).trace =
      [.imagePull "alpine",
       .containerCreate "alpine" ["echo", "hi"]
         [{ Kind := "bind", Source := "/work/data", Target := "/data" }],
       .containerStart "c5", .containerWait "c5", .containerRemove "c5"] ∧
    Event.mkdirAll "/work/data" 0o755 none ∈
      (Execute (calmWorld 0) (NewPipeline exampleManifest) []).trace := by
  have h := Execute_runs_every_task_in_order (calmWorld 0) (NewPipeline exampleManifest) []
    "/work" (by decide) (by decide) (by decide)
  refine ⟨h.1, ?_, by decide⟩
  rw [h.2.2]
  decide

/-- C2: a failed pull, create, start or wait makes `Execute` return an error and is
followed by no engine call; when the failing call belongs to task `i` (it stands
at or after the pull number `i + 1` and before the next one), the images pulled
in the whole run are those of tasks `0` to `i`, so no later task is pulled. -/
theorem Execute_stops_at_engine_failure (w : World) (p : Pipeline) (args : List String)
    (pre : List Event) (e : Event) (post : List Event) (i : Nat)
    (hsplit : (Execute w p args).trace = pre ++ e :: post)
    (hfail : e.engineFatal = true)
    (hi : (pulledImages (pre ++ [e])).length = i + 1) :
    (Execute w p args).err.isSome = true ∧ engineCalls post = [] ∧
      pulledImages (Execute w p args).trace = (p.tasks.take (i + 1)).map Task.Image := by
  rcases Execute_shape w p args with ⟨cause, htr, -⟩ | ⟨cause, htr, -⟩ |
    ⟨pwd, evs, readers, -, -, htr, hrun⟩
  · have hmem : e ∈ (Execute w p args).trace := by rw [hsplit]; simp
    rw [htr, List.mem_singleton] at hmem
    subst hmem
    exact Bool.noConfusion hfail
  · have hmem : e ∈ (Execute w p args).trace := by rw [hsplit]; simp
    rw [htr] at hmem
    simp only [List.mem_cons, List.mem_singleton, List.not_mem_nil, or_false] at hmem
    rcases hmem with rfl | rfl
    · exact Bool.noConfusion hfail
    · exact Bool.noConfusion hfail
  · rw [htr] at hsplit
    have hhead : ∀ x ∈ [Event.newClient none, Event.getwd (.ok pwd)],
        x.engineFatal = false := by
      intro x hx
      simp only [List.mem_cons, List.mem_singleton, List.not_mem_nil, or_false] at hx
      rcases hx with rfl | rfl <;> rfl
    have htail : ∀ x ∈ readers.map Event.close, x.engineFatal = false := by
      intro x hx
      obtain ⟨r, -, rfl⟩ := List.mem_map.mp hx
      rfl
    obtain ⟨a, b, hevs, hpre, hpost⟩ := split_mid hsplit hhead htail hfail
    obtain ⟨herr, hb⟩ := hrun.stops_at_failure a e b hevs hfail
    subst hb
    have hpulled : pulledImages (Execute w p args).trace = pulledImages evs := by
      rw [htr, pulledImages_append, pulledImages_append, pulledImages_of_close]
      simp [pulledImages]
    have hcount : pulledImages (pre ++ [e]) = pulledImages evs := by
      rw [hpre, hevs, List.append_assoc, pulledImages_append]
      simp [pulledImages]
    refine ⟨herr, ?_, ?_⟩
    · rw [hpost]
      simpa using engineCalls_of_close readers
    · rw [hpulled, ← hi, hcount]
      exact hrun.loop_pulled

/-- C2 at the example of the specification: of two tasks the create of the first
fails; `Execute` returns an error and the second image is never pulled. -/
theorem Execute_stops_at_engine_failure_witness :
    (Execute (faultyWorld createFault) twoTasks []).err.isSome = true ∧
    engineCalls [Event.close ⟨2⟩] = [] ∧
    pulledImages (Execute (faultyWorld createFault) twoTasks []).trace = ["alpine"] :=
  Execute_stops_at_engine_failure (faultyWorld createFault) twoTasks []
    [.newClient none, .getwd (.ok "/work"), .imagePull "alpine" (.ok ⟨2⟩), .copy ⟨2⟩]
    (.containerCreate "alpine" ["true"] [] (.error "no space left on device"))
    [.close ⟨2⟩] 0 (by decide) (by decide) (by decide)

/-- C7: `waitForCompletion` makes one wait call and acts on the one signal it
observes: a status event gives no error whatever exit code it carries, an error
signal is returned as it is.  Hence a wait event carrying a status is never a
failure, and a run in which no call other than a removal fails returns no error
whatever the exit codes of its containers are. -/
theorem waitForCompletion_acts_on_one_signal (w : World) (s : State) (id : String)
    (p : Pipeline) (args : List String) :
    (∀ code, w.ContainerWait s.calls id = .status code →
      waitForCompletion w s id = (s.emit (.containerWait id (.status code)), none)) ∧
    (∀ err, w.ContainerWait s.calls id = .errs err →
      waitForCompletion w s id = (s.emit (.containerWait id (.errs err)), err)) ∧
    (∀ code, (Event.containerWait id (.status code)).fatal = false) ∧
    ((∀ t ∈ p.tasks, Resolvable p.volumes t.VolumeMounts) →
      (∀ e ∈ (Execute w p args).trace, e.fatal = false) →
      (Execute w p args).err = none) := by
  refine ⟨?_, ?_, fun _ => rfl, ?_⟩
  · intro code h
    simp [waitForCompletion, h]
  · intro err h
    simp [waitForCompletion, h]
  · intro hres hok
    rcases Execute_shape w p args with ⟨cause, htr, -⟩ | ⟨cause, htr, -⟩ |
      ⟨pwd, evs, readers, -, -, htr, hrun⟩
    · have := hok (.newClient (some cause)) (by rw [htr]; simp)
      exact Bool.noConfusion this
    · have := hok (.getwd (.error cause)) (by rw [htr]; simp)
      exact Bool.noConfusion this
    · exact (hrun.complete (fun e he => hok e (by rw [htr]; simp [he])) hres).1

/-- C7 on a world whose containers all exit with code 3: the waiter returns no
error, the wait event carries the code, and `Execute` returns no error. -/
theorem waitForCompletion_acts_on_one_signal_witness :
    (waitForCompletion (calmWorld 3) { trace := [], logs := [], deferred := [] } "c5").2 = none ∧
    Event.containerWait "c5" (.status 3) ∈
      (Execute (calmWorld 3) (NewPipeline exampleManifest) []).trace ∧
    (Execute (calmWorld 3) (NewPipeline exampleManifest) []).err = none := by
  have h := waitForCompletion_acts_on_one_signal (calmWorld 3)
    { trace := [], logs := [], deferred := [] } "c5" (NewPipeline exampleManifest) []
  exact ⟨by rw [h.1 3 rfl], by decide, h.2.2.2 (by decide) (by decide)⟩

/-- C9: the lookup is a first-match scan.  It finds nothing exactly when no
volume has the name, and then the mount loop stops with the missing-volume
error without a call; when `v` is the first volume in list order with the name
(others may follow), the lookup finds `v`, the directory created is
`join pwd v.HostPath`, and on success that path is the source of the bind mount
appended. -/
theorem findVolume_first_match (w : World) (pwd : String) (volumes : List Volume)
    (vm : VolumeMount) (rest : List VolumeMount) (s : State) (acc : List Mount) :
    (findVolume volumes vm.Name = none ↔ ∀ u ∈ volumes, u.Name ≠ vm.Name) ∧
    ((∀ u ∈ volumes, u.Name ≠ vm.Name) →
      mountLoop w pwd volumes (vm :: rest) s acc =
        (s, .error ("failed to find volume: " ++ vm.Name))) ∧
    (∀ before v after, volumes = before ++ v :: after → v.Name = vm.Name →
      (∀ u ∈ before, u.Name ≠ vm.Name) →
      findVolume volumes vm.Name = some v ∧
      mountLoop w pwd volumes (vm :: rest) s acc =
        match w.MkdirAll s.calls (w.Join pwd v.HostPath) 0o755 with
        | some err =>
          (s.emit (.mkdirAll (w.Join pwd v.HostPath) 0o755 (some err)),
            .error ("failed to create volume: " ++ vm.Name))
        | none =>
          mountLoop w pwd volumes rest (s.emit (.mkdirAll (w.Join pwd v.HostPath) 0o755 none))
            (acc ++ [{ Kind := TypeBind, Source := w.Join pwd v.HostPath,
                       Target := vm.ContainerPath }])) := by
  refine ⟨findVolume_eq_none_iff volumes vm.Name, ?_, ?_⟩
  · intro hnone
    have := (findVolume_eq_none_iff volumes vm.Name).mpr hnone
    simp [mountLoop, this]
  · intro before v after hsplit hname hfirst
    have hfound : findVolume volumes vm.Name = some v :=
      (findVolume_eq_some_iff volumes vm.Name v).mpr ⟨before, after, hsplit, hname, hfirst⟩
    refine ⟨hfound, ?_⟩
    simp only [mountLoop, hfound]

/-- C9 on two volumes of the same name: the first one is taken, and the bind
mount has its host path under the working directory. -/
theorem findVolume_first_match_witness :
    findVolume twinVolumes "data" = some { Name := "data", HostPath := "first" } ∧
    (mountLoop (calmWorld 0) "/work" twinVolumes [{ Name := "data", ContainerPath := "/data" }]
      { trace := [], logs := [], deferred := [] } []).2 =
      .ok [{ Kind := "bind", Source := "/work/first", Target := "/data" }] := by
  have h := (findVolume_first_match (calmWorld 0) "/work" twinVolumes
    { Name := "data", ContainerPath := "/data" } []
    { trace := [], logs := [], deferred := [] } []).2.2
    [] { Name := "data", HostPath := "first" } [{ Name := "data", HostPath := "second" }]
    (by decide) (by decide) (by decide)
  exact ⟨h.1, by rw [h.2]; decide⟩

/-- C5 as stated fails: every volume mount of the example names a volume, yet
resolution returns an error, because the directory cannot be created; `Execute`
returns that error and never calls create. -/
theorem resolution_fails_when_mkdir_fails :
    Resolvable exampleManifest.Volumes [{ Name := "data", ContainerPath := "/data" }] ∧
    (mountLoop (faultyWorld mkdirFault) "/work" exampleManifest.Volumes
      [{ Name := "data", ContainerPath := "/data" }]
      { trace := [], logs := [], deferred := [] } []).2 =
      .error "failed to create volume: data" ∧
    (Execute (faultyWorld mkdirFault) (NewPipeline exampleManifest) []).err =
      some "failed to create volume: data" ∧
    engineCalls (Execute (faultyWorld mkdirFault) (NewPipeline exampleManifest) []).trace =
      [.imagePull "alpine"] := by
  decide

/-- C5, amended: when every volume mount of every task names a volume and every
directory creation succeeds, resolution of a task returns no error but the mount
list, which has one bind mount per volume mount, in order, the k-th with source
`join pwd HostPath` of the volume the lookup finds and target the k-th container
path; and every create call of `Execute` carries the mount list of its task. -/
theorem resolution_succeeds_when_mkdir_succeeds (w : World) (p : Pipeline)
    (args : List String) (pwd : String)
    (hpwd : w.Getwd [Call.newClient] = .ok pwd)
    (hres : ∀ t ∈ p.tasks, Resolvable p.volumes t.VolumeMounts)
    (hmk : ∀ h path perm, w.MkdirAll h path perm = none) :
    (∀ t ∈ p.tasks, ∀ s : State,
      (mountLoop w pwd p.volumes t.VolumeMounts s []).2 =
        .ok (bindMounts w.Join pwd p.volumes t.VolumeMounts) ∧
      (bindMounts w.Join pwd p.volumes t.VolumeMounts).length = t.VolumeMounts.length ∧
      ∀ k (hk : k < t.VolumeMounts.length),
        ∃ v, findVolume p.volumes (t.VolumeMounts[k]).Name = some v ∧
          (bindMounts w.Join pwd p.volumes t.VolumeMounts)[k]? =
            some { Kind := TypeBind, Source := w.Join pwd v.HostPath,
                   Target := (t.VolumeMounts[k]).ContainerPath }) ∧
    (∀ image cmd mounts res,
      Event.containerCreate image cmd mounts res ∈ (Execute w p args).trace →
      ∃ t ∈ p.tasks, image = t.Image ∧ cmd = t.Command ∧
        mounts = bindMounts w.Join pwd p.volumes t.VolumeMounts) := by
  constructor
  · intro t ht s
    obtain ⟨hlen, hk⟩ := bindMounts_spec w.Join pwd p.volumes t.VolumeMounts (hres t ht)
    refine ⟨?_, hlen, hk⟩
    simpa using mountLoop_ok w pwd p.volumes hmk t.VolumeMounts s [] (hres t ht)
  · intro image cmd mounts res hmem
    rcases Execute_shape w p args with ⟨cause, htr, -⟩ | ⟨cause, htr, -⟩ |
      ⟨pwd2, evs, readers, -, hg, htr, hrun⟩
    · rw [htr] at hmem
      simp at hmem
    · rw [htr] at hmem
      simp at hmem
    · rw [hpwd] at hg
      cases hg
      rw [htr] at hmem
      simp only [List.mem_append, List.mem_cons, reduceCtorEq, List.not_mem_nil, or_self,
        false_or, List.mem_map, and_false, exists_false, or_false] at hmem
      obtain ⟨t, ht, himg, hcmd, -, hms⟩ := hrun.loop_creates image cmd mounts res hmem
      exact ⟨t, ht, himg, hcmd, hms⟩

/-- C5, amended, at the example of the specification: resolution returns the one
bind mount `/work/data -> /data`. -/
theorem resolution_succeeds_when_mkdir_succeeds_witness :
    (mountLoop (calmWorld 0) "/work" (NewPipeline exampleManifest).volumes
      [{ Name := "data", ContainerPath := "/data" }]
      { trace := [], logs := [], deferred := [] } []).2 =
      .ok [{ Kind := "bind", Source := "/work/data", Target := "/data" }] := by
  have h := (resolution_succeeds_when_mkdir_succeeds (calmWorld 0) (NewPipeline exampleManifest)
    [] "/work" (by decide) (by decide) (fun _ _ _ => rfl)).1
    { Image := "alpine", Command := ["echo", "hi"],
      VolumeMounts := [{ Name := "data", ContainerPath := "/data" }] } (by decide)
    { trace := [], logs := [], deferred := [] }
  rw [h.1]
  decide

/-- C4: let task `t`, standing after the tasks `pre`, be the first task with a
volume mount that names no volume, `vm` being the first such mount of `t`, and
let no call other than a removal fail.  Then `Execute` fails with the message
`failed to find volume: ` followed by the name, which the message therefore
contains; and the engine calls of the run are the complete blocks of the tasks
of `pre` followed by the pull of `t` alone: no create and no start is made for
`t` or for a later task. -/
theorem Execute_fails_on_missing_volume (w : World) (p : Pipeline) (args : List String)
    (pwd : String) (pre : List Task) (t : Task) (post : List Task)
    (vpre : List VolumeMount) (vm : VolumeMount) (vpost : List VolumeMount)
    (hpwd : w.Getwd [Call.newClient] = .ok pwd)
    (htasks : p.tasks = pre ++ t :: post)
    (hpre : ∀ u ∈ pre, Resolvable p.volumes u.VolumeMounts)
    (hmounts : t.VolumeMounts = vpre ++ vm :: vpost)
    (hvpre : Resolvable p.volumes vpre)
    (hmissing : ∀ v ∈ p.volumes, v.Name ≠ vm.Name)
    (hok : ∀ e ∈ (Execute w p args).trace, e.fatal = false) :
    (∃ msg, (Execute w p args).err = some msg ∧
      msg = "failed to find volume: " ++ vm.Name ∧ Mentions msg vm.Name) ∧
    (createdIds (Execute w p args).trace).length = pre.length ∧
    engineCalls (Execute w p args).trace =
      (List.zipWith (taskCalls w.Join pwd p.volumes) pre
        (createdIds (Execute w p args).trace)).flatten ++ [.imagePull t.Image] := by
  rcases Execute_shape w p args with ⟨cause, htr, -⟩ | ⟨cause, htr, -⟩ |
    ⟨pwd2, evs, readers, -, hg, htr, hrun⟩
  · have := hok (.newClient (some cause)) (by rw [htr]; simp)
    exact Bool.noConfusion this
  · have := hok (.getwd (.error cause)) (by rw [htr]; simp)
    exact Bool.noConfusion this
  · rw [hpwd] at hg
    cases hg
    have hids : createdIds (Execute w p args).trace = createdIds evs := by
      rw [htr, createdIds_append, createdIds_append, createdIds_of_close]
      simp [createdIds]
    have hcalls : engineCalls (Execute w p args).trace = engineCalls evs := by
      rw [htr, engineCalls_append, engineCalls_append, engineCalls_of_close]
      simp [engineCalls, Event.call, Call.isEngine]
    rw [htasks] at hrun
    obtain ⟨herr, hlen, hseg⟩ := LoopRun.missing_volume hmounts
      ((resolvable_iff p.volumes vpre).mp hvpre)
      ((findVolume_eq_none_iff p.volumes vm.Name).mpr hmissing) pre evs _ hrun
      (fun e he => hok e (by rw [htr]; simp [he])) hpre
    rw [hids, hcalls]
    exact ⟨⟨_, herr, rfl, Mentions_suffix _ _⟩, hlen, hseg⟩

/-- C4 on three tasks of which the second mounts the undefined volume `cache`:
the error names `cache`, the first task runs to its end, the second is pulled
and nothing more is called. -/
theorem Execute_fails_on_missing_volume_witness :
    (Execute (calmWorld 0) missingVolumePipeline []).err =
      some "failed to find volume: cache" ∧
    Mentions "failed to find volume: cache" "cache" ∧
    engineCalls (Execute (calmWorld 0) missingVolumePipeline []).trace =
      [.imagePull "alpine",
       .containerCreate "alpine" ["true"]
         [{ Kind := "bind", Source := "/work/data", Target := "/data" }],
       .containerStart "c5", .containerWait "c5", .containerRemove "c5",
       .imagePull "busybox"] := by
  have h := Execute_fails_on_missing_volume (calmWorld 0) missingVolumePipeline [] "/work"
    [{ Image := "alpine", Command := ["true"],
       VolumeMounts := [{ Name := "data", ContainerPath := "/data" }] }]
    { Image := "busybox", Command := ["true"],
      VolumeMounts := [{ Name := "data", ContainerPath := "/data" },
                       { Name := "cache", ContainerPath := "/cache" }] }
    [{ Image := "debian", Command := ["true"], VolumeMounts := [] }]
    [{ Name := "data", ContainerPath := "/data" }]
    { Name := "cache", ContainerPath := "/cache" } []
    (by decide) (by decide) (by decide) (by decide) (by decide) (by decide) (by decide)
  obtain ⟨⟨msg, herr, hmsg, hmen⟩, -, hcalls⟩ := h
  subst hmsg
  exact ⟨herr, hmen, by rw [hcalls]; decide⟩

/-- C10: in every trace of `Execute` a removal comes right after a successful wait
on the same identifier.  When the start or the wait of a container fails, that
call comes right after the successful create that returned the identifier (and
the start), `Execute` returns an error, and no removal follows: the container
just created is left behind.  If moreover no earlier create had handed out the
same identifier, the trace holds no removal of that identifier at all. -/
theorem Execute_removes_only_after_wait (w : World) (p : Pipeline) (args : List String) :
    (∀ a id rm b, (Execute w p args).trace = a ++ Event.containerRemove id rm :: b →
      ∃ a2 sig, a = a2 ++ [Event.containerWait id sig] ∧ ∀ c, sig ≠ .errs (some c)) ∧
    (∀ a e b id cause, (Execute w p args).trace = a ++ e :: b →
      (e = .containerStart id (some cause) ∨ e = .containerWait id (.errs (some cause))) →
      (Execute w p args).err.isSome = true ∧
      (∀ x ∈ b, x.isRemove = false) ∧
      ∃ a2 image cmd mounts tail,
        a = a2 ++ Event.containerCreate image cmd mounts (.ok id) :: tail ∧
        (tail = [] ∨ tail = [.containerStart id none]) ∧
        (id ∉ createdIds a2 →
          ∀ x ∈ (Execute w p args).trace, x.call ≠ .containerRemove id)) := by
  have hclose : ∀ (readers : List Reader), ∀ x ∈ readers.map Event.close,
      x.isRemove = false ∧ x.engineFatal = false := by
    intro readers x hx
    obtain ⟨r, -, rfl⟩ := List.mem_map.mp hx
    exact ⟨rfl, rfl⟩
  have hhead : ∀ (pwd : String), ∀ x ∈ [Event.newClient none, Event.getwd (.ok pwd)],
      x.isRemove = false ∧ x.engineFatal = false := by
    intro pwd x hx
    simp only [List.mem_cons, List.mem_singleton, List.not_mem_nil, or_false] at hx
    rcases hx with rfl | rfl <;> exact ⟨rfl, rfl⟩
  constructor
  · intro a id rm b hsplit
    rcases Execute_shape w p args with ⟨cause, htr, -⟩ | ⟨cause, htr, -⟩ |
      ⟨pwd, evs, readers, -, -, htr, hrun⟩
    · have hmem : Event.containerRemove id rm ∈ (Execute w p args).trace := by
        rw [hsplit]; simp
      rw [htr] at hmem
      simp at hmem
    · have hmem : Event.containerRemove id rm ∈ (Execute w p args).trace := by
        rw [hsplit]; simp
      rw [htr] at hmem
      simp at hmem
    · rw [htr] at hsplit
      obtain ⟨a0, b0, hevs, ha, -⟩ := split_mid (P := Event.isRemove) hsplit
        (fun x hx => (hhead pwd x hx).1) (fun x hx => (hclose readers x hx).1) rfl
      obtain ⟨a2, sig, ha0, hsig, -⟩ := hrun.remove_inv a0 id rm b0 hevs
      exact ⟨[Event.newClient none, Event.getwd (.ok pwd)] ++ a2, sig,
        by rw [ha, ha0]; simp, hsig⟩
  · intro a e b id cause hsplit he
    have hfatal : e.engineFatal = true := by
      rcases he with rfl | rfl <;> rfl
    have hnotrm : e.isRemove = false := by
      rcases he with rfl | rfl <;> rfl
    rcases Execute_shape w p args with ⟨c, htr, -⟩ | ⟨c, htr, -⟩ |
      ⟨pwd, evs, readers, -, -, htr, hrun⟩
    · have hmem : e ∈ (Execute w p args).trace := by rw [hsplit]; simp
      rw [htr, List.mem_singleton] at hmem
      subst hmem
      exact Bool.noConfusion hfatal
    · have hmem : e ∈ (Execute w p args).trace := by rw [hsplit]; simp
      rw [htr] at hmem
      simp only [List.mem_cons, List.mem_singleton, List.not_mem_nil, or_false] at hmem
      rcases hmem with rfl | rfl
      · exact Bool.noConfusion hfatal
      · exact Bool.noConfusion hfatal
    · have hsplit2 := hsplit
      rw [htr] at hsplit2
      obtain ⟨a0, b0, hevs, ha, hb⟩ := split_mid (P := Event.engineFatal) hsplit2
        (fun x hx => (hhead pwd x hx).2) (fun x hx => (hclose readers x hx).2) hfatal
      obtain ⟨herr, hb0⟩ := hrun.stops_at_failure a0 e b0 hevs hfatal
      subst hb0
      obtain ⟨hstart, hwait⟩ := hrun.failure_inv a0 e [] hevs hfatal
      have hshape : ∃ a2 image cmd mounts tail,
          a0 = a2 ++ Event.containerCreate image cmd mounts (.ok id) :: tail ∧
          (tail = [] ∨ tail = [Event.containerStart id none]) := by
        rcases he with rfl | rfl
        · obtain ⟨a2, image, cmd, mounts, h0⟩ := hstart id cause rfl
          exact ⟨a2, image, cmd, mounts, [], h0, Or.inl rfl⟩
        · obtain ⟨a2, image, cmd, mounts, h0⟩ := hwait id cause rfl
          exact ⟨a2, image, cmd, mounts, [.containerStart id none], h0, Or.inr rfl⟩
      obtain ⟨a2, image, cmd, mounts, tail, ha0, htail⟩ := hshape
      refine ⟨herr, ?_, [Event.newClient none, Event.getwd (.ok pwd)] ++ a2, image, cmd,
        mounts, tail, by rw [ha, ha0]; simp, htail, ?_⟩
      · intro x hx
        rw [hb] at hx
        exact (hclose readers x (by simpa using hx)).1
      · intro hfresh x hx hcall
        have hfresh2 : id ∉ createdIds a2 := by
          intro hin
          apply hfresh
          rw [createdIds_append]
          exact List.mem_append_right _ hin
        have hx2 : ∃ rm, x = Event.containerRemove id rm := by
          cases x <;> simp [Event.call] at hcall
          exact ⟨_, by rw [hcall]⟩
        obtain ⟨rm, rfl⟩ := hx2
        rw [htr, hevs, ha0] at hx
        have hin : Event.containerRemove id rm ∈ a2 := by
          simp only [List.mem_append, List.mem_cons, List.mem_singleton, List.not_mem_nil,
            or_false, reduceCtorEq, false_or, List.mem_map, and_false, exists_false] at hx
          rcases hx with (hx | hx) | hx
          · exact hx
          · rcases htail with rfl | rfl
            · simp at hx
            · simp at hx
          · subst hx
            exact Bool.noConfusion hnotrm
        obtain ⟨u, v, huv⟩ := List.append_of_mem hin
        have hevs2 : evs = u ++ Event.containerRemove id rm ::
            (v ++ Event.containerCreate image cmd mounts (.ok id) :: tail ++ [e]) := by
          rw [hevs, ha0, huv]
          simp
        obtain ⟨u2, sig, hu, -, hid⟩ := hrun.remove_inv u id rm _ hevs2
        apply hfresh2
        rw [huv, hu, createdIds_append, createdIds_append]
        exact List.mem_append_left _ (List.mem_append_left _ hid)

/-- C10 on two tasks of which the second fails to start: the first container
`c4` is removed right after its wait, `Execute` returns an error, and the
container `c10` of the second task is never removed. -/
theorem Execute_removes_only_after_wait_witness :
    (Execute (faultyWorld startFault) twoTasks []).err.isSome = true ∧
    (∀ x ∈ [Event.close ⟨8⟩, Event.close ⟨2⟩], x.isRemove = false) ∧
    (∀ x ∈ (Execute (faultyWorld startFault) twoTasks []).trace,
      x.call ≠ .containerRemove "c10") ∧
    Event.containerRemove "c4" none ∈ (Execute (faultyWorld startFault) twoTasks []).trace := by
  have h := (Execute_removes_only_after_wait (faultyWorld startFault) twoTasks []).2
    [.newClient none, .getwd (.ok "/work"),
     .imagePull "alpine" (.ok ⟨2⟩), .copy ⟨2⟩,
     .containerCreate "alpine" ["true"] [] (.ok "c4"),
     .containerStart "c4" none, .containerWait "c4" (.status 0), .containerRemove "c4" none,
     .imagePull "busybox" (.ok ⟨8⟩), .copy ⟨8⟩,
     .containerCreate "busybox" ["true"] [] (.ok "c10")]
    (.containerStart "c10" (some "oci runtime error"))
    [.close ⟨8⟩, .close ⟨2⟩] "c10" "oci runtime error" (by decide) (Or.inl rfl)
  exact ⟨h.1, h.2.1, by decide, by decide⟩

/-- C3: replacing the removal behaviour of a world by any other one changes
neither the error `Execute` returns nor the sequence of calls it makes.  In
particular, in a run in which no call other than a removal fails and every
volume mount names a volume, `Execute` returns no error and every task makes its
five engine calls, whichever removals failed. -/
theorem Execute_ignores_removal_outcome (w : World) (remove : List Call → String → Option String)
    (p : Pipeline) (args : List String) :
    (Execute { w with ContainerRemove := remove } p args).err = (Execute w p args).err ∧
    (Execute { w with ContainerRemove := remove } p args).trace.map Event.call =
      (Execute w p args).trace.map Event.call ∧
    (∀ pwd, w.Getwd [Call.newClient] = .ok pwd →
      (∀ t ∈ p.tasks, Resolvable p.volumes t.VolumeMounts) →
      (∀ e ∈ (Execute w p args).trace, e.fatal = false) →
      (Execute w p args).err = none ∧
        (createdIds (Execute w p args).trace).length = p.tasks.length ∧
        engineCalls (Execute w p args).trace =
          (List.zipWith (taskCalls w.Join pwd p.volumes) p.tasks
            (createdIds (Execute w p args).trace)).flatten) := by
  refine ⟨?_, ?_, fun pwd hpwd hres hok => Execute_complete w p args pwd hpwd hres hok⟩
  · cases hn : w.NewClientWithOpts [] with
    | some cause => simp [Execute, State.calls, hn, State.ret]
    | none =>
      cases hg : w.Getwd [.newClient] with
      | error cause => simp [Execute, State.calls, Event.call, hn, hg, State.ret]
      | ok pwd =>
        have hsim := taskLoop_sim { w with ContainerRemove := remove } w rfl rfl rfl rfl rfl rfl
          pwd p.volumes p.tasks
          ((State.emit { trace := [], logs := [], deferred := [] } (.newClient none)).emit
            (.getwd (.ok pwd)))
          ((State.emit { trace := [], logs := [], deferred := [] } (.newClient none)).emit
            (.getwd (.ok pwd))) rfl rfl
        simpa [Execute, State.calls, Event.call, hn, hg, State.ret] using hsim.2.2
  · cases hn : w.NewClientWithOpts [] with
    | some cause => simp [Execute, State.calls, hn, State.ret]
    | none =>
      cases hg : w.Getwd [.newClient] with
      | error cause => simp [Execute, State.calls, Event.call, hn, hg, State.ret]
      | ok pwd =>
        have hsim := taskLoop_sim { w with ContainerRemove := remove } w rfl rfl rfl rfl rfl rfl
          pwd p.volumes p.tasks
          ((State.emit { trace := [], logs := [], deferred := [] } (.newClient none)).emit
            (.getwd (.ok pwd)))
          ((State.emit { trace := [], logs := [], deferred := [] } (.newClient none)).emit
            (.getwd (.ok pwd))) rfl rfl
        have h1 : Execute { w with ContainerRemove := remove } p args =
            (taskLoop { w with ContainerRemove := remove } pwd p.volumes p.tasks
              ((State.emit { trace := [], logs := [], deferred := [] } (.newClient none)).emit
                (.getwd (.ok pwd)))).1.ret
              (taskLoop { w with ContainerRemove := remove } pwd p.volumes p.tasks
                ((State.emit { trace := [], logs := [], deferred := [] } (.newClient none)).emit
                  (.getwd (.ok pwd)))).2 := by
          simp [Execute, State.calls, Event.call, hn, hg]
        have h2 : Execute w p args =
            (taskLoop w pwd p.volumes p.tasks
              ((State.emit { trace := [], logs := [], deferred := [] } (.newClient none)).emit
                (.getwd (.ok pwd)))).1.ret
              (taskLoop w pwd p.volumes p.tasks
                ((State.emit { trace := [], logs := [], deferred := [] } (.newClient none)).emit
                  (.getwd (.ok pwd)))).2 := by
          simp [Execute, State.calls, Event.call, hn, hg]
        rw [h1, h2, State.calls_ret, State.calls_ret, hsim.1, hsim.2.1]

/-- C3 at the example of the specification: the removal of the first container
fails, the second task succeeds; `Execute` returns no error, the second task is
run, and the calls are those of the run in which every removal succeeds. -/
theorem Execute_ignores_removal_outcome_witness :
    Event.containerRemove "c4" (some "removal already in progress") ∈
      (Execute (faultyWorld removeFault) twoTasks []).trace ∧
    (Execute (faultyWorld removeFault) twoTasks []).err = none ∧
    engineCalls (Execute (faultyWorld removeFault) twoTasks []).trace =
      [.imagePull "alpine", .containerCreate "alpine" ["true"] [],
       .containerStart "c4", .containerWait "c4", .containerRemove "c4",
       .imagePull "busybox", .containerCreate "busybox" ["true"] [],
       .containerStart "c10", .containerWait "c10", .containerRemove "c10"] ∧
    (Execute { faultyWorld removeFault with ContainerRemove := fun _ _ => none }
        twoTasks []).trace.map Event.call =
      (Execute (faultyWorld removeFault) twoTasks []).trace.map Event.call := by
  have h := Execute_ignores_removal_outcome (faultyWorld removeFault) (fun _ _ => none)
    twoTasks []
  have h3 := h.2.2 "/work" rfl (by decide) (by decide)
  exact ⟨by decide, h3.1, by rw [h3.2.2]; decide, h.2.1⟩

/-- C6 fails for the creation of a host directory: `os.MkdirAll` fails with the
cause `permission denied`, and `Execute` returns `failed to create volume: data`,
a message that names the step and the volume and does not contain the cause. -/
theorem Execute_drops_mkdir_cause :
    Event.mkdirAll "/work/data" 0o755 (some "permission denied") ∈
      (Execute (faultyWorld mkdirFault) (NewPipeline exampleManifest) []).trace ∧
    (Execute (faultyWorld mkdirFault) (NewPipeline exampleManifest) []).err =
      some "failed to create volume: data" ∧
    ¬ Mentions "failed to create volume: data" "permission denied" := by
  refine ⟨by decide, by decide, ?_⟩
  intro h
  have hp : 'p' ∈ "failed to create volume: data".data :=
    (List.IsInfix.subset h) (by decide)
  exact absurd hp (by decide)

/-- C8 fails on two tasks: the stream of the first pull (handle 2) is closed
after the second pull, indeed after every other call, and at the second pull
both streams are open. -/
theorem Execute_closes_streams_at_return :
    (Execute (calmWorld 0) twoTasks []).trace.map Event.call =
      [.newClient, .getwd,
       .imagePull "alpine", .copy ⟨2⟩, .containerCreate "alpine" ["true"] [],
       .containerStart "c4", .containerWait "c4", .containerRemove "c4",
       .imagePull "busybox", .copy ⟨8⟩, .containerCreate "busybox" ["true"] [],
       .containerStart "c10", .containerWait "c10", .containerRemove "c10",
       .close ⟨8⟩, .close ⟨2⟩] := by
  decide

end DockerPipeline
